import Mathlib

/-!
Monospace width of grapheme clusters (`resources/wcwidth/uniseg.go`)

A shallow embedding of `runeWidth`, `FirstGraphemeClusterInString` and
`StringWidth`.

Modelling conventions:

* a Go `string` is a list of bytes (`GoString`); byte counts and indices are
  natural numbers;
* Go `int` and `rune` values are integers (`Int`). Sums of widths are modelled
  at two levels: `joinWidth`, `clusterLoop`, `FirstGraphemeClusterInString`,
  `stringWidthLoop` and `StringWidth` add in the integers, while `joinWidth64`,
  `clusterLoop64`, `FirstGraphemeClusterInString64`, `stringWidthLoop64` and
  `StringWidth64` reduce every sum by `wrap64`, as Go's 64-bit `int` does.
  Widths never steer the control flow: `first_cluster64_eq` and
  `stringWidthLoop64_eq` show that both levels return the same cluster, rest and
  state and that the 64-bit width is the `wrap64` of the integer width, so the
  levels agree as long as `max(4, EastAsianAmbiguousWidth) * len(s) < 2 ^ 63`;
* the Unicode tables, the boundary automaton `transitionGraphemeState`, the UTF-8
  decoder `utf8.DecodeRuneInString` and the enumeration constants are declared
  outside the two source files; they are the fields of `Env`, and every theorem
  holds for all values of the fields unless a hypothesis says otherwise;
* slicing a string out of range panics in Go: `sliceFrom`/`sliceTo` return
  `Fault.sliceBounds` there;
* the `for` loops are unrolled with a fuel counter; running out gives
  `Fault.fuel`, and the theorems show that the fuel supplied is always enough.
-/

namespace Uniseg

/-- A Go string: a sequence of bytes. -/
abbrev GoString := List (Fin 256)

/-- The declarations used by `uniseg.go` that live outside it: enumeration
constants, the package variable `EastAsianAmbiguousWidth`, the property tables,
the boundary automaton and the UTF-8 decoder. -/
structure Env where
  prControl : Int
  prCR : Int
  prLF : Int
  prExtend : Int
  prZWJ : Int
  prRegionalIndicator : Int
  prExtendedPictographic : Int
  prL : Int
  prEmojiPresentation : Int
  prW : Int
  prF : Int
  prA : Int
  grAny : Int
  shiftGraphemePropState : Nat
  maskGraphemeState : Int
  /-- The package variable `EastAsianAmbiguousWidth` (default 1). -/
  EastAsianAmbiguousWidth : Int
  /-- The table lookup `propertyGraphemes(r)`. -/
  propertyGraphemes : Int → Int
  /-- The table lookup `property(emojiPresentation, r)`. -/
  propertyEmojiPresentation : Int → Int
  /-- The table lookup `propertyEastAsianWidth(r)`. -/
  propertyEastAsianWidth : Int → Int
  /-- The automaton step `transitionGraphemeState(state, r)`, returning
  `(newState, prop, boundary)`. -/
  transitionGraphemeState : Int → Int → Int × Int × Bool
  /-- The decoder `utf8.DecodeRuneInString(s)`, returning `(rune, size)`. -/
  DecodeRuneInString : GoString → Int × Nat

/-- Modelled from the spec: the constant `vs15` is declared outside the source
files; Variation Selector-15 is the code point U+FE0E. -/
def vs15 : Int := 0xfe0e

/-- Modelled from the spec: the constant `vs16` is declared outside the source
files; Variation Selector-16 is the code point U+FE0F. -/
def vs16 : Int := 0xfe0f

/-- The hypothesis on the decoder used for termination: on a non-empty string
the decoded size is at least one byte. -/
def DecoderAdvances (E : Env) : Prop :=
  ∀ s : GoString, s ≠ [] → 1 ≤ (E.DecodeRuneInString s).2

/-- Go `x << n` on `int`, without wrap-around. -/
def shl (x : Int) (n : Nat) : Int := x * 2 ^ n

/-- Go `x >> n` on `int` (arithmetic shift). -/
def shr (x : Int) (n : Nat) : Int := x >>> n

/-- `runeWidth(r, graphemeProperty)`: three `switch` statements in sequence; a
`switch` without matching case falls through to the next statement. -/
def runeWidth (E : Env) (r : Int) (graphemeProperty : Int) : Int :=
  if graphemeProperty = E.prControl ∨ graphemeProperty = E.prCR ∨ graphemeProperty = E.prLF
      ∨ graphemeProperty = E.prExtend ∨ graphemeProperty = E.prZWJ then 0
  else if graphemeProperty = E.prRegionalIndicator then 2
  else if graphemeProperty = E.prExtendedPictographic then
    if E.propertyEmojiPresentation r = E.prEmojiPresentation then 2 else 1
  else
    if r = 0x2e3a then 3
    else if r = 0x2e3b then 4
    else
      if E.propertyEastAsianWidth r = E.prW ∨ E.propertyEastAsianWidth r = E.prF then 2
      else if E.propertyEastAsianWidth r = E.prA then E.EastAsianAmbiguousWidth
      else 1

/-- The ways the model of a Go function can fail to return. -/
inductive Fault where
  | sliceBounds
  | fuel
  deriving DecidableEq, Repr

/-- The four results of `FirstGraphemeClusterInString`. -/
structure Result where
  cluster : GoString
  rest : GoString
  width : Int
  newState : Int
  deriving DecidableEq, Repr

/-- Go `s[n:]`: panics when `n > len(s)`. -/
def sliceFrom (s : GoString) (n : Nat) : Except Fault GoString :=
  if n ≤ s.length then .ok (s.drop n) else .error .sliceBounds

/-- Go `s[:n]`: panics when `n > len(s)`. -/
def sliceTo (s : GoString) (n : Nat) : Except Fault GoString :=
  if n ≤ s.length then .ok (s.take n) else .error .sliceBounds

/-- The width update inside the loop of `FirstGraphemeClusterInString`, for a
joined code point `r` with property `prop`. The sum is taken in the integers;
`joinWidth64` is the same update with Go's 64-bit sum. -/
def joinWidth (E : Env) (firstProp width r prop : Int) : Int :=
  if firstProp = E.prExtendedPictographic then
    if r = vs15 then 1
    else if r = vs16 then 2
    else width
  else if firstProp ≠ E.prRegionalIndicator ∧ firstProp ≠ E.prL then
    width + runeWidth E r prop
  else width

/-- The `for` loop of `FirstGraphemeClusterInString` ("transition until we find
a boundary"), with loop variables `length`, `state` and `width`. -/
def clusterLoop (E : Env) (str : GoString) (firstProp : Int) :
    Nat → Nat → Int → Int → Except Fault Result
  | 0, _, _, _ => .error .fuel
  | fuel + 1, length, state, width =>
    match sliceFrom str length with
    | .error e => .error e
    | .ok tail =>
      let rl := E.DecodeRuneInString tail
      let t := E.transitionGraphemeState (Int.land state E.maskGraphemeState) rl.1
      if t.2.2 = true then
        match sliceTo str length, sliceFrom str length with
        | .ok c, .ok rest =>
          .ok ⟨c, rest, width, Int.lor t.1 (shl t.2.1 E.shiftGraphemePropState)⟩
        | .error e, _ => .error e
        | _, .error e => .error e
      else
        let width1 := joinWidth E firstProp width rl.1 t.2.1
        let length1 := length + rl.2
        if str.length ≤ length1 then
          .ok ⟨str, [], width1, Int.lor E.grAny (shl t.2.1 E.shiftGraphemePropState)⟩
        else clusterLoop E str firstProp fuel length1 t.1 width1

/-- `FirstGraphemeClusterInString(str, state)`. -/
def FirstGraphemeClusterInString (E : Env) (str : GoString) (state : Int) :
    Except Fault Result :=
  if str.length = 0 then .ok ⟨[], [], 0, 0⟩
  else
    let rl := E.DecodeRuneInString str
    if str.length ≤ rl.2 then
      let prop := if state < 0 then E.propertyGraphemes rl.1
                  else shr state E.shiftGraphemePropState
      .ok ⟨str, [], runeWidth E rl.1 prop,
        Int.lor E.grAny (shl prop E.shiftGraphemePropState)⟩
    else
      let t := E.transitionGraphemeState state rl.1
      let state1 := if state < 0 then t.1 else state
      let firstProp := if state < 0 then t.2.1 else shr state E.shiftGraphemePropState
      clusterLoop E str firstProp str.length rl.2 state1 (0 + runeWidth E rl.1 firstProp)

/-- The loop of `StringWidth`, with loop variables `s`, `state` and `width`. The
sum is taken in the integers; `stringWidthLoop64` is the same loop with Go's
64-bit sum. -/
def stringWidthLoop (E : Env) : Nat → GoString → Int → Int → Except Fault Int
  | _, [], _, width => .ok width
  | 0, _ :: _, _, _ => .error .fuel
  | fuel + 1, b :: bs, state, width =>
    match FirstGraphemeClusterInString E (b :: bs) state with
    | .error e => .error e
    | .ok res => stringWidthLoop E fuel res.rest res.newState (width + res.width)

/-- `StringWidth(s)`. -/
def StringWidth (E : Env) (s : GoString) : Except Fault Int :=
  stringWidthLoop E s.length s (-1) 0

/-! ### Ghost views of one call: the code points it looked at -/

/-- The first code point decoded by `FirstGraphemeClusterInString(str, _)`. -/
def firstRune (E : Env) (str : GoString) : Int := (E.DecodeRuneInString str).1

/-- The property the call uses for the first code point: `prop` in the branch
where the first code point is the whole string, `firstProp` otherwise. -/
def firstProp (E : Env) (str : GoString) (state : Int) : Int :=
  if str.length ≤ (E.DecodeRuneInString str).2 then
    if state < 0 then E.propertyGraphemes (firstRune E str)
    else shr state E.shiftGraphemePropState
  else
    if state < 0 then (E.transitionGraphemeState state (firstRune E str)).2.1
    else shr state E.shiftGraphemePropState

/-- The code points the loop joins to the cluster after the first one, each with
the property `transitionGraphemeState` reported for it, in order. It follows the
control flow of `clusterLoop`: stop at a boundary or at the end of the string. -/
def joinedLoop (E : Env) (str : GoString) : Nat → Nat → Int → List (Int × Int)
  | 0, _, _ => []
  | fuel + 1, length, state =>
    let rl := E.DecodeRuneInString (str.drop length)
    let t := E.transitionGraphemeState (Int.land state E.maskGraphemeState) rl.1
    if t.2.2 = true then []
    else
      (rl.1, t.2.1) ::
        (if str.length ≤ length + rl.2 then []
         else joinedLoop E str fuel (length + rl.2) t.1)

/-- The code points joined to the first cluster of `str` after its first code
point, with their reported properties. -/
def joined (E : Env) (str : GoString) (state : Int) : List (Int × Int) :=
  if str.length ≤ (E.DecodeRuneInString str).2 then []
  else
    let t := E.transitionGraphemeState state (firstRune E str)
    joinedLoop E str str.length (E.DecodeRuneInString str).2 (if state < 0 then t.1 else state)

/-- The width updates of the loop applied to a list of joined code points. -/
def foldWidth (E : Env) (fp : Int) (w : Int) (js : List (Int × Int)) : Int :=
  js.foldl (fun acc p => joinWidth E fp acc p.1 p.2) w

/-- The successive clusters of a string: each call is fed the `rest` and
`newState` of the previous one, until the rest is empty. -/
def clustersLoop (E : Env) : Nat → GoString → Int → Except Fault (List GoString)
  | _, [], _ => .ok []
  | 0, _ :: _, _ => .error .fuel
  | fuel + 1, b :: bs, state =>
    match FirstGraphemeClusterInString E (b :: bs) state with
    | .error e => .error e
    | .ok res =>
      match clustersLoop E fuel res.rest res.newState with
      | .error e => .error e
      | .ok cs => .ok (res.cluster :: cs)

/-! ### A concrete environment

The theorems below quantify over every `Env`. To evaluate the code on concrete
strings, `demoEnv` supplies a model of the UTF-8 decoder of Go's standard
library, a boundary automaton in the shape of the Unicode grapheme rules GB3 to
GB13 over the states `grAny` ... `grRIEven`, and property tables covering a few
blocks. -/

/-- The size in bytes announced by a leading byte `0xC2 ≤ x ≤ 0xF4`. -/
def utf8Size (x : Nat) : Nat := if x < 0xE0 then 2 else if x < 0xF0 then 3 else 4

/-- The lowest second byte accepted after the leading byte `x`. -/
def utf8Lo (x : Nat) : Nat := if x = 0xE0 then 0xA0 else if x = 0xF0 then 0x90 else 0x80

/-- The highest second byte accepted after the leading byte `x`. -/
def utf8Hi (x : Nat) : Nat := if x = 0xED then 0x9F else if x = 0xF4 then 0x8F else 0xBF

/-- Go's `utf8.DecodeRuneInString`: the code point and byte size of the first
UTF-8 sequence, or `(U+FFFD, 1)` for an invalid one and `(U+FFFD, 0)` for the
empty string. -/
def utf8DecodeRuneInString : GoString → Int × Nat
  | [] => (0xFFFD, 0)
  | b0 :: t =>
    if b0.val < 0x80 then ((b0.val : Int), 1)
    else if b0.val < 0xC2 ∨ 0xF4 < b0.val then (0xFFFD, 1)
    else if t.length + 1 < utf8Size b0.val then (0xFFFD, 1)
    else
      match t with
      | [] => (0xFFFD, 1)
      | b1 :: t1 =>
        if b1.val < utf8Lo b0.val ∨ utf8Hi b0.val < b1.val then (0xFFFD, 1)
        else if utf8Size b0.val ≤ 2 then (((b0.val % 32 * 64 + b1.val % 64 : Nat) : Int), 2)
        else
          match t1 with
          | [] => (0xFFFD, 1)
          | b2 :: t2 =>
            if b2.val < 0x80 ∨ 0xBF < b2.val then (0xFFFD, 1)
            else if utf8Size b0.val ≤ 3 then
              (((b0.val % 16 * 4096 + b1.val % 64 * 64 + b2.val % 64 : Nat) : Int), 3)
            else
              match t2 with
              | [] => (0xFFFD, 1)
              | b3 :: _ =>
                if b3.val < 0x80 ∨ 0xBF < b3.val then (0xFFFD, 1)
                else
                  (((b0.val % 8 * 262144 + b1.val % 64 * 4096 + b2.val % 64 * 64
                      + b3.val % 64 : Nat) : Int), 4)

/-- Grapheme properties of a few blocks, numbered `prAny = 0`, `prPrepend = 1`,
`prCR = 2`, `prLF = 3`, `prControl = 4`, `prExtend = 5`, `prRegionalIndicator = 6`,
`prSpacingMark = 7`, `prL = 8`, `prV = 9`, `prT = 10`, `prLV = 11`, `prLVT = 12`,
`prZWJ = 13`, `prExtendedPictographic = 14`. -/
def demoPropertyGraphemes (r : Int) : Int :=
  if r = 0x0D then 2
  else if r = 0x0A then 3
  else if r < 0x20 ∨ (0x7F ≤ r ∧ r ≤ 0x9F) then 4
  else if (0x0300 ≤ r ∧ r ≤ 0x036F) ∨ (0xFE00 ≤ r ∧ r ≤ 0xFE0F) then 5
  else if 0x1F1E6 ≤ r ∧ r ≤ 0x1F1FF then 6
  else if r = 0x0903 then 7
  else if 0x1100 ≤ r ∧ r ≤ 0x115F then 8
  else if 0x1160 ≤ r ∧ r ≤ 0x11A7 then 9
  else if 0x11A8 ≤ r ∧ r ≤ 0x11FF then 10
  else if 0xAC00 ≤ r ∧ r ≤ 0xD7A3 then (if (r - 0xAC00) % 28 = 0 then 11 else 12)
  else if r = 0x200D then 13
  else if 0x0600 ≤ r ∧ r ≤ 0x0605 then 1
  else if r = 0x2764 ∨ r = 0x3030 ∨ r = 0x2708 ∨ (0x1F400 ≤ r ∧ r ≤ 0x1F64F) then 14
  else 0

/-- Emoji presentation of a few blocks: 1 (`prEmojiPresentation`) or 0. -/
def demoPropertyEmojiPresentation (r : Int) : Int :=
  if 0x1F400 ≤ r ∧ r ≤ 0x1F64F then 1 else 0

/-- East Asian Width of a few blocks: 2 (`prW`), 3 (`prF`), 4 (`prA`) or 0. -/
def demoPropertyEastAsianWidth (r : Int) : Int :=
  if (0x1100 ≤ r ∧ r ≤ 0x115F) ∨ (0x2E80 ≤ r ∧ r ≤ 0x303E) ∨ (0x3041 ≤ r ∧ r ≤ 0xA4CF)
      ∨ (0xAC00 ≤ r ∧ r ≤ 0xD7A3) ∨ (0x1F400 ≤ r ∧ r ≤ 0x1F64F) then 2
  else if 0xFF01 ≤ r ∧ r ≤ 0xFF60 then 3
  else if r = 0xA1 ∨ r = 0xB1 ∨ r = 0x2014 ∨ (0x2460 ≤ r ∧ r ≤ 0x24E9) then 4
  else 0

/-- The transition table of the boundary automaton: for a state and a property,
the next state, whether there is a boundary, and the rule number; `none` when the
table has no entry. States: `grAny = 0`, `grCR = 1`, `grControlLF = 2`, `grL = 3`,
`grLVV = 4`, `grLVTT = 5`, `grPrepend = 6`, `grExtendedPictographic = 7`,
`grExtendedPictographicZWJ = 8`, `grRIOdd = 9`, `grRIEven = 10`. -/
def demoTransitions (state prop : Int) : Option (Int × Bool × Nat) :=
  if state < 0 ∨ prop < 0 then none
  else
    match state.toNat, prop.toNat with
    | 0, 2 => some (1, true, 50)
    | 0, 3 => some (2, true, 50)
    | 0, 4 => some (2, true, 50)
    | 1, 0 => some (0, true, 40)
    | 2, 0 => some (0, true, 40)
    | 1, 3 => some (2, false, 30)
    | 0, 8 => some (3, true, 9990)
    | 3, 8 => some (3, false, 60)
    | 3, 9 => some (4, false, 60)
    | 3, 11 => some (4, false, 60)
    | 3, 12 => some (5, false, 60)
    | 0, 11 => some (4, true, 9990)
    | 0, 9 => some (4, true, 9990)
    | 4, 9 => some (4, false, 70)
    | 4, 10 => some (5, false, 70)
    | 0, 12 => some (5, true, 9990)
    | 0, 10 => some (5, true, 9990)
    | 5, 10 => some (5, false, 80)
    | 0, 5 => some (0, false, 90)
    | 0, 13 => some (0, false, 90)
    | 0, 7 => some (0, false, 91)
    | 0, 1 => some (6, true, 9990)
    | 6, 0 => some (0, false, 92)
    | 0, 14 => some (7, true, 9990)
    | 7, 5 => some (7, false, 110)
    | 7, 13 => some (8, false, 110)
    | 8, 14 => some (7, false, 110)
    | 0, 6 => some (9, true, 9990)
    | 9, 6 => some (10, false, 120)
    | 10, 6 => some (9, true, 120)
    | _, _ => none

/-- The automaton step: the specific table entry if there is one, otherwise the
entries for "any property" and "any state" combined by rule number, otherwise a
boundary (GB999). -/
def demoTransitionGraphemeState (state r : Int) : Int × Int × Bool :=
  let prop := demoPropertyGraphemes r
  match demoTransitions state prop with
  | some (ns, b, _) => (ns, prop, b)
  | none =>
    match demoTransitions state 0, demoTransitions 0 prop with
    | some (_, pb, pr), some (ss, sb, sr) => (ss, prop, if pr < sr then pb else sb)
    | some (ps, pb, _), none => (ps, prop, pb)
    | none, some (ss, sb, _) => (ss, prop, sb)
    | none, none => (0, prop, true)

/-- The concrete environment: shift 4, mask `0xf`, ambiguous width 1. -/
def demoEnv : Env where
  prControl := 4
  prCR := 2
  prLF := 3
  prExtend := 5
  prZWJ := 13
  prRegionalIndicator := 6
  prExtendedPictographic := 14
  prL := 8
  prEmojiPresentation := 1
  prW := 2
  prF := 3
  prA := 4
  grAny := 0
  shiftGraphemePropState := 4
  maskGraphemeState := 0xf
  EastAsianAmbiguousWidth := 1
  propertyGraphemes := demoPropertyGraphemes
  propertyEmojiPresentation := demoPropertyEmojiPresentation
  propertyEastAsianWidth := demoPropertyEastAsianWidth
  transitionGraphemeState := demoTransitionGraphemeState
  DecodeRuneInString := utf8DecodeRuneInString


/-! ### The width rule as the specification and the doc comment word it -/

/-- The value of the first rule whose guard holds. -/
def firstMatch : List (Bool × Int) → Option Int
  | [] => none
  | (g, v) :: rules => if g = true then some v else firstMatch rules

/-- The width rule as the specification lists it: seven ordered rules (rule 4
has two code points), each a guard and a width. -/
def widthRules (E : Env) (r p : Int) : List (Bool × Int) :=
  [ (decide (p = E.prControl ∨ p = E.prCR ∨ p = E.prLF ∨ p = E.prExtend ∨ p = E.prZWJ), 0),
    (decide (p = E.prRegionalIndicator), 2),
    (decide (p = E.prExtendedPictographic),
      if E.propertyEmojiPresentation r = E.prEmojiPresentation then 2 else 1),
    (decide (r = 0x2E3A), 3),
    (decide (r = 0x2E3B), 4),
    (decide (E.propertyEastAsianWidth r = E.prW ∨ E.propertyEastAsianWidth r = E.prF), 2),
    (decide (E.propertyEastAsianWidth r = E.prA), E.EastAsianAmbiguousWidth),
    (true, 1) ]

/-- The width rule in the order the doc comment of `runeWidth` gives ("evaluated
in this order"): zero-width properties, the two dashes, East Asian Fullwidth and
Wide, Regional Indicator, Extended Pictographic; Ambiguous and Neutral have
width 1. -/
def docRules (E : Env) (r p : Int) : List (Bool × Int) :=
  [ (decide (p = E.prControl ∨ p = E.prCR ∨ p = E.prLF ∨ p = E.prExtend ∨ p = E.prZWJ), 0),
    (decide (r = 0x2E3A), 3),
    (decide (r = 0x2E3B), 4),
    (decide (E.propertyEastAsianWidth r = E.prW ∨ E.propertyEastAsianWidth r = E.prF), 2),
    (decide (p = E.prRegionalIndicator), 2),
    (decide (p = E.prExtendedPictographic),
      if E.propertyEmojiPresentation r = E.prEmojiPresentation then 2 else 1),
    (true, 1) ]


/-! ### Ghost views of the whole scan and of the boundary step -/

/-- The environment with the automaton replaced by another one: used to say that
a result does not depend on the automaton. -/
def withAutomaton (E : Env) (T : Int → Int → Int × Int × Bool) : Env :=
  { E with transitionGraphemeState := T }

/-- The widths of the successive clusters of a string: each call is fed the
`rest` and `newState` of the previous one, until the rest is empty. -/
def widthsLoop (E : Env) : Nat → GoString → Int → Except Fault (List Int)
  | _, [], _ => .ok []
  | 0, _ :: _, _ => .error .fuel
  | fuel + 1, b :: bs, state =>
    match FirstGraphemeClusterInString E (b :: bs) state with
    | .error e => .error e
    | .ok res =>
      match widthsLoop E fuel res.rest res.newState with
      | .error e => .error e
      | .ok ws => .ok (res.width :: ws)

/-- The result `(newState, prop, boundary)` of the call of
`transitionGraphemeState` on which the loop stopped at a boundary; `none` when
the loop ran to the end of the string. It follows the control flow of
`clusterLoop`. -/
def boundaryLoop (E : Env) (str : GoString) : Nat → Nat → Int → Option (Int × Int × Bool)
  | 0, _, _ => none
  | fuel + 1, length, state =>
    let rl := E.DecodeRuneInString (str.drop length)
    let t := E.transitionGraphemeState (Int.land state E.maskGraphemeState) rl.1
    if t.2.2 = true then some t
    else if str.length ≤ length + rl.2 then none
    else boundaryLoop E str fuel (length + rl.2) t.1

/-- The automaton result on which `FirstGraphemeClusterInString(str, state)`
stopped at a boundary, if it did. -/
def boundaryStep (E : Env) (str : GoString) (state : Int) : Option (Int × Int × Bool) :=
  if str.length ≤ (E.DecodeRuneInString str).2 then none
  else
    let t := E.transitionGraphemeState state (firstRune E str)
    boundaryLoop E str str.length (E.DecodeRuneInString str).2 (if state < 0 then t.1 else state)

/-! ### The widths in 64-bit arithmetic

The definitions above add widths as integers. Go's `int` has 64 bits and its
sums wrap around; the definitions below are the same functions with every sum
of widths reduced by `wrap64`. Widths never steer the control flow, so the two
levels return the same cluster, rest and state, and the 64-bit width is the
`wrap64` of the integer width. -/

/-- Two's-complement reduction of an integer to the range of a 64-bit `int`. -/
def wrap64 (x : Int) : Int := (x + 2 ^ 63) % 2 ^ 64 - 2 ^ 63

/-- The width update inside the loop, with the 64-bit sum `width += ...`. -/
def joinWidth64 (E : Env) (firstProp width r prop : Int) : Int :=
  if firstProp = E.prExtendedPictographic then
    if r = vs15 then 1
    else if r = vs16 then 2
    else width
  else if firstProp ≠ E.prRegionalIndicator ∧ firstProp ≠ E.prL then
    wrap64 (width + runeWidth E r prop)
  else width

/-- The `for` loop of `FirstGraphemeClusterInString` with 64-bit widths. -/
def clusterLoop64 (E : Env) (str : GoString) (firstProp : Int) :
    Nat → Nat → Int → Int → Except Fault Result
  | 0, _, _, _ => .error .fuel
  | fuel + 1, length, state, width =>
    match sliceFrom str length with
    | .error e => .error e
    | .ok tail =>
      let rl := E.DecodeRuneInString tail
      let t := E.transitionGraphemeState (Int.land state E.maskGraphemeState) rl.1
      if t.2.2 = true then
        match sliceTo str length, sliceFrom str length with
        | .ok c, .ok rest =>
          .ok ⟨c, rest, width, Int.lor t.1 (shl t.2.1 E.shiftGraphemePropState)⟩
        | .error e, _ => .error e
        | _, .error e => .error e
      else
        let width1 := joinWidth64 E firstProp width rl.1 t.2.1
        let length1 := length + rl.2
        if str.length ≤ length1 then
          .ok ⟨str, [], width1, Int.lor E.grAny (shl t.2.1 E.shiftGraphemePropState)⟩
        else clusterLoop64 E str firstProp fuel length1 t.1 width1

/-- `FirstGraphemeClusterInString(str, state)` with 64-bit widths. -/
def FirstGraphemeClusterInString64 (E : Env) (str : GoString) (state : Int) :
    Except Fault Result :=
  if str.length = 0 then .ok ⟨[], [], 0, 0⟩
  else
    let rl := E.DecodeRuneInString str
    if str.length ≤ rl.2 then
      let prop := if state < 0 then E.propertyGraphemes rl.1
                  else shr state E.shiftGraphemePropState
      .ok ⟨str, [], runeWidth E rl.1 prop,
        Int.lor E.grAny (shl prop E.shiftGraphemePropState)⟩
    else
      let t := E.transitionGraphemeState state rl.1
      let state1 := if state < 0 then t.1 else state
      let firstProp := if state < 0 then t.2.1 else shr state E.shiftGraphemePropState
      clusterLoop64 E str firstProp str.length rl.2 state1
        (wrap64 (0 + runeWidth E rl.1 firstProp))

/-- The loop of `StringWidth` with the 64-bit sum `width += w`. -/
def stringWidthLoop64 (E : Env) : Nat → GoString → Int → Int → Except Fault Int
  | _, [], _, width => .ok width
  | 0, _ :: _, _, _ => .error .fuel
  | fuel + 1, b :: bs, state, width =>
    match FirstGraphemeClusterInString64 E (b :: bs) state with
    | .error e => .error e
    | .ok res => stringWidthLoop64 E fuel res.rest res.newState (wrap64 (width + res.width))

/-- `StringWidth(s)` with 64-bit widths. -/
def StringWidth64 (E : Env) (s : GoString) : Except Fault Int :=
  stringWidthLoop64 E s.length s (-1) 0

/-- A result with its width reduced to 64 bits. -/
def wrapWidth (res : Result) : Result :=
  ⟨res.cluster, res.rest, wrap64 res.width, res.newState⟩

/-- The concrete environment with `EastAsianAmbiguousWidth` set to the largest
`int`, `2 ^ 63 - 1`. -/
def maxAmbiguousEnv : Env := { demoEnv with EastAsianAmbiguousWidth := 2 ^ 63 - 1 }

end Uniseg

/-!
The legacy width of single runes (`resources/wcwidth/go_runewidth.go`)

A shallow embedding of `Condition.RuneWidth` and `Condition.StringWidth`. A
panic (an index out of range in the combined lookup table) is `none`. The range
tables, the functions `inTable` and `inTables` and the grapheme iterator are
declared outside the source file.
-/

namespace Runewidth

open Uniseg (GoString)

/-- Modelled from the spec: the type `table` is declared outside the source
file; a range table is seen through its membership test, the code points it
contains. -/
abbrev Table := Int → Bool

/-- Modelled from the spec: `inTable(r, t)` is declared outside the source file;
it tells whether the code point `r` lies in the range table `t`. -/
def inTable (r : Int) (t : Table) : Bool := t r

/-- Modelled from the spec: `inTables(r, ts...)` is declared outside the source
file; it tells whether the code point `r` lies in one of the range tables. -/
def inTables (r : Int) (ts : List Table) : Bool := ts.any (fun t => inTable r t)

/-- The package-level range tables used by `RuneWidth`. -/
structure Tables where
  nonprint : Table
  combining : Table
  narrow : Table
  doublewidth : Table
  ambiguous : Table
  emoji : Table

/-- The fields of `Condition` that the two methods read. -/
structure Condition where
  combinedLut : List (Fin 256)
  EastAsianWidth : Bool
  StrictEmojiNeutral : Bool

/-- The method `RuneWidth`: `c.RuneWidth(r)`. -/
def Condition.RuneWidth (c : Condition) (T : Tables) (r : Int) : Option Int :=
  if r < 0 ∨ r > 0x10FFFF then some 0
  else if c.combinedLut.length > 0 then
    match c.combinedLut[(Uniseg.shr r 1).toNat]? with
    | none => none
    | some b => some (Int.land ((b.val >>> ((Int.land r 1).toNat * 4) : Nat) : Int) 3)
  else if (!c.EastAsianWidth) = true then
    if r < 0x20 then some 0
    else if (r ≥ 0x7F ∧ r ≤ 0x9F) ∨ r = 0xAD then some 0
    else if r < 0x300 then some 1
    else if inTable r T.narrow = true then some 1
    else if inTables r [T.nonprint, T.combining] = true then some 0
    else if inTable r T.doublewidth = true then some 2
    else some 1
  else
    if inTables r [T.nonprint, T.combining] = true then some 0
    else if inTable r T.narrow = true then some 1
    else if inTables r [T.ambiguous, T.doublewidth] = true then some 2
    else if (!c.StrictEmojiNeutral && inTables r [T.ambiguous, T.emoji, T.narrow]) = true then
      some 2
    else some 1

/-- What `StringWidth` takes from outside: the grapheme iterator
`graphemes.FromString(s)`, as the list of the values of `g.Value()` after each
successful `g.Next()`, and the code points a `range` over a string yields. -/
structure Segmenter where
  graphemes : GoString → List GoString
  runes : GoString → List Int

/-- The inner loop of `StringWidth` over the runes of one cluster, with loop
variable `chWidth`: stop at the first rune of positive width. -/
def chWidthLoop (c : Condition) (T : Tables) : List Int → Int → Option Int
  | [], chWidth => some chWidth
  | r :: rs, _ =>
    match c.RuneWidth T r with
    | none => none
    | some w => if w > 0 then some w else chWidthLoop c T rs w

/-- The outer loop of `StringWidth` over the clusters, with loop variable
`width`. -/
def clusterWidthsLoop (c : Condition) (T : Tables) (G : Segmenter) :
    List GoString → Int → Option Int
  | [], width => some width
  | g :: gs, width =>
    match chWidthLoop c T (G.runes g) 0 with
    | none => none
    | some chWidth => clusterWidthsLoop c T G gs (width + chWidth)

/-- The method `StringWidth`: `c.StringWidth(s)`. -/
def Condition.StringWidth (c : Condition) (T : Tables) (G : Segmenter) (s : GoString) :
    Option Int :=
  clusterWidthsLoop c T G (G.graphemes s) 0

/-- The width a call of `RuneWidth` returns, 0 when it panics. -/
def widthOf (c : Condition) (T : Tables) (r : Int) : Int := (c.RuneWidth T r).getD 0

/-- The first non-zero entry of a list of widths, 0 when there is none. -/
def firstNonZero : List Int → Int
  | [] => 0
  | w :: ws => if w ≠ 0 then w else firstNonZero ws

/-- The East Asian branch of `RuneWidth` in the order the claim words it, with
the emoji table alone in the fourth test. -/
def eastAsianOrder (T : Tables) (strict : Bool) (r : Int) : Int :=
  if T.nonprint r = true ∨ T.combining r = true then 0
  else if T.narrow r = true then 1
  else if T.ambiguous r = true ∨ T.doublewidth r = true then 2
  else if strict = false ∧ T.emoji r = true then 2
  else 1

/-- The code points of a string as a `range` loop yields them, by the model of
the UTF-8 decoder. -/
def rangeRunes : Nat → GoString → List Int
  | 0, _ => []
  | _ + 1, [] => []
  | fuel + 1, b :: bs =>
    (Uniseg.utf8DecodeRuneInString (b :: bs)).1
      :: rangeRunes fuel ((b :: bs).drop (Uniseg.utf8DecodeRuneInString (b :: bs)).2)

/-- A combined lookup table of `0x88000` bytes, each holding the widths 2 (low
nibble) and 3 (high nibble). -/
def demoLut : List (Fin 256) := List.replicate 0x88000 0x32

/-- A concrete segmenter: the clusters found with the concrete environment. -/
def demoSegmenter : Segmenter where
  graphemes := fun s =>
    match Uniseg.clustersLoop Uniseg.demoEnv s.length s (-1) with
    | .ok cs => cs
    | .error _ => []
  runes := fun g => rangeRunes g.length g

/-- Concrete range tables covering a few blocks. -/
def demoTables : Tables where
  nonprint := fun r => decide (r < 0x20 ∨ (0x7F ≤ r ∧ r ≤ 0x9F) ∨ r = 0xAD ∨ r = 0x200B)
  combining := fun r => decide (0x0300 ≤ r ∧ r ≤ 0x036F)
  narrow := fun r => decide ((0x20 ≤ r ∧ r ≤ 0x7E) ∨ r = 0xA2 ∨ r = 0xA3)
  doublewidth := fun r => decide ((0x1100 ≤ r ∧ r ≤ 0x115F) ∨ (0x2E80 ≤ r ∧ r ≤ 0xA4CF)
    ∨ (0x1F300 ≤ r ∧ r ≤ 0x1F64F))
  ambiguous := fun r => decide (r = 0xA1 ∨ r = 0xB1 ∨ (0x2460 ≤ r ∧ r ≤ 0x24E9))
  emoji := fun r => decide (r = 0xA9 ∨ r = 0xAE ∨ r = 0x2764 ∨ (0x1F300 ≤ r ∧ r ≤ 0x1F64F))

end Runewidth

namespace Uniseg

/-! ### Lemmas about the concrete environment -/

theorem utf8DecodeRuneInString_size_pos (s : GoString) (hs : s ≠ []) :
    1 ≤ (utf8DecodeRuneInString s).2 := by
  cases s with
  | nil => exact absurd rfl hs
  | cons b0 t =>
    unfold utf8DecodeRuneInString
    split
    · rename_i h; exact absurd h (by simp)
    · repeat' split
      all_goals simp

theorem demoEnv_advances : DecoderAdvances demoEnv := by
  intro s hs
  exact utf8DecodeRuneInString_size_pos s hs

/-! ### The loop returns, and splits the string -/

theorem sliceFrom_ok (s : GoString) (n : Nat) (h : n ≤ s.length) :
    sliceFrom s n = .ok (s.drop n) := by
  simp [sliceFrom, h]

theorem sliceTo_ok (s : GoString) (n : Nat) (h : n ≤ s.length) :
    sliceTo s n = .ok (s.take n) := by
  simp [sliceTo, h]

/-- One unfolding of the loop when the index is inside the string. -/
theorem clusterLoop_succ (E : Env) (str : GoString) (fp : Int) (fuel length : Nat)
    (state width : Int) (h : length ≤ str.length) :
    clusterLoop E str fp (fuel + 1) length state width =
      if (E.transitionGraphemeState (Int.land state E.maskGraphemeState)
            (E.DecodeRuneInString (str.drop length)).1).2.2 = true then
        .ok ⟨str.take length, str.drop length, width,
          Int.lor (E.transitionGraphemeState (Int.land state E.maskGraphemeState)
            (E.DecodeRuneInString (str.drop length)).1).1
            (shl (E.transitionGraphemeState (Int.land state E.maskGraphemeState)
              (E.DecodeRuneInString (str.drop length)).1).2.1 E.shiftGraphemePropState)⟩
      else if str.length ≤ length + (E.DecodeRuneInString (str.drop length)).2 then
        .ok ⟨str, [], joinWidth E fp width (E.DecodeRuneInString (str.drop length)).1
            (E.transitionGraphemeState (Int.land state E.maskGraphemeState)
              (E.DecodeRuneInString (str.drop length)).1).2.1,
          Int.lor E.grAny
            (shl (E.transitionGraphemeState (Int.land state E.maskGraphemeState)
              (E.DecodeRuneInString (str.drop length)).1).2.1 E.shiftGraphemePropState)⟩
      else
        clusterLoop E str fp fuel (length + (E.DecodeRuneInString (str.drop length)).2)
          (E.transitionGraphemeState (Int.land state E.maskGraphemeState)
            (E.DecodeRuneInString (str.drop length)).1).1
          (joinWidth E fp width (E.DecodeRuneInString (str.drop length)).1
            (E.transitionGraphemeState (Int.land state E.maskGraphemeState)
              (E.DecodeRuneInString (str.drop length)).1).2.1) := by
  rw [clusterLoop]
  simp only [sliceFrom_ok str length h, sliceTo_ok str length h]

theorem clusterLoop_returns (E : Env) (hE : DecoderAdvances E) (str : GoString) (fp : Int) :
    ∀ (fuel length : Nat) (state width : Int), length < str.length →
      str.length - length ≤ fuel →
      ∃ res, clusterLoop E str fp fuel length state width = .ok res
        ∧ res.cluster ++ res.rest = str ∧ length ≤ res.cluster.length := by
  intro fuel
  induction fuel with
  | zero => intro length state width h1 h2; omega
  | succ fuel ih =>
    intro length state width h1 h2
    rw [clusterLoop_succ E str fp fuel length state width (Nat.le_of_lt h1)]
    split
    · exact ⟨_, rfl, List.take_append_drop length str, by simp [Nat.le_of_lt h1]⟩
    · split
      · exact ⟨_, rfl, by simp, by simpa using Nat.le_of_lt h1⟩
      · rename_i hlen
        have hne : str.drop length ≠ [] := by
          intro h0
          have := congrArg List.length h0
          simp at this
          omega
        have hpos := hE _ hne
        obtain ⟨res, hres, hcat, hle⟩ := ih (length + (E.DecodeRuneInString (str.drop length)).2)
          (E.transitionGraphemeState (Int.land state E.maskGraphemeState)
            (E.DecodeRuneInString (str.drop length)).1).1
          (joinWidth E fp width (E.DecodeRuneInString (str.drop length)).1
            (E.transitionGraphemeState (Int.land state E.maskGraphemeState)
              (E.DecodeRuneInString (str.drop length)).1).2.1)
          (by omega) (by omega)
        exact ⟨res, hres, hcat, by omega⟩

/-- On a non-empty string the call returns a non-empty cluster and the rest. -/
theorem first_cluster_returns (E : Env) (hE : DecoderAdvances E) (str : GoString)
    (state : Int) (hne : str ≠ []) :
    ∃ res, FirstGraphemeClusterInString E str state = .ok res
      ∧ res.cluster ++ res.rest = str ∧ 1 ≤ res.cluster.length := by
  have hlen : 0 < str.length := List.length_pos.mpr hne
  have hpos := hE str hne
  unfold FirstGraphemeClusterInString
  rw [if_neg (by omega)]
  simp only []
  split
  · exact ⟨_, rfl, by simp, by simpa using hlen⟩
  · rename_i h
    obtain ⟨res, hres, hcat, hle⟩ := clusterLoop_returns E hE str
      (if state < 0 then (E.transitionGraphemeState state (E.DecodeRuneInString str).1).2.1
        else shr state E.shiftGraphemePropState)
      str.length (E.DecodeRuneInString str).2
      (if state < 0 then (E.transitionGraphemeState state (E.DecodeRuneInString str).1).1
        else state)
      (0 + runeWidth E (E.DecodeRuneInString str).1
        (if state < 0 then (E.transitionGraphemeState state (E.DecodeRuneInString str).1).2.1
          else shr state E.shiftGraphemePropState))
      (by omega) (by omega)
    exact ⟨res, hres, hcat, by omega⟩

theorem first_cluster_empty (E : Env) (state : Int) :
    FirstGraphemeClusterInString E [] state = .ok ⟨[], [], 0, 0⟩ := by
  simp [FirstGraphemeClusterInString]

theorem clustersLoop_returns (E : Env) (hE : DecoderAdvances E) :
    ∀ (fuel : Nat) (s : GoString) (state : Int), s.length ≤ fuel →
      ∃ cs, clustersLoop E fuel s state = .ok cs ∧ cs.flatten = s := by
  intro fuel
  induction fuel with
  | zero =>
    intro s state h
    have : s = [] := List.length_eq_zero.mp (by omega)
    subst this
    exact ⟨[], by simp [clustersLoop], rfl⟩
  | succ fuel ih =>
    intro s state h
    cases s with
    | nil => exact ⟨[], by simp [clustersLoop], rfl⟩
    | cons b bs =>
      obtain ⟨res, hres, hcat, hle⟩ :=
        first_cluster_returns E hE (b :: bs) state (by simp)
      have hrest : res.rest.length ≤ fuel := by
        have := congrArg List.length hcat
        simp at this h
        omega
      obtain ⟨cs, hcs, hjoin⟩ := ih res.rest res.newState hrest
      refine ⟨res.cluster :: cs, ?_, ?_⟩
      · simp [clustersLoop, hres, hcs]
      · simp [hjoin, hcat]

theorem stringWidthLoop_returns (E : Env) (hE : DecoderAdvances E) :
    ∀ (fuel : Nat) (s : GoString) (state width : Int), s.length ≤ fuel →
      ∃ w, stringWidthLoop E fuel s state width = .ok w := by
  intro fuel
  induction fuel with
  | zero =>
    intro s state width h
    have : s = [] := List.length_eq_zero.mp (by omega)
    subst this
    exact ⟨width, by simp [stringWidthLoop]⟩
  | succ fuel ih =>
    intro s state width h
    cases s with
    | nil => exact ⟨width, by simp [stringWidthLoop]⟩
    | cons b bs =>
      obtain ⟨res, hres, hcat, hle⟩ :=
        first_cluster_returns E hE (b :: bs) state (by simp)
      have hrest : res.rest.length ≤ fuel := by
        have := congrArg List.length hcat
        simp at this h
        omega
      obtain ⟨w, hw⟩ := ih res.rest res.newState (width + res.width) hrest
      exact ⟨w, by simp [stringWidthLoop, hres, hw]⟩


/-! ### The width returned, in terms of the joined code points -/

theorem foldWidth_nil (E : Env) (fp w : Int) : foldWidth E fp w [] = w := rfl

theorem foldWidth_cons (E : Env) (fp w : Int) (q : Int × Int) (js : List (Int × Int)) :
    foldWidth E fp w (q :: js) = foldWidth E fp (joinWidth E fp w q.1 q.2) js := rfl

theorem foldWidth_append (E : Env) (fp w : Int) (js ks : List (Int × Int)) :
    foldWidth E fp w (js ++ ks) = foldWidth E fp (foldWidth E fp w js) ks := by
  simp [foldWidth, List.foldl_append]

theorem clusterLoop_width (E : Env) (str : GoString) (fp : Int) :
    ∀ (fuel length : Nat) (state width : Int) (res : Result), length ≤ str.length →
      clusterLoop E str fp fuel length state width = .ok res →
      res.width = foldWidth E fp width (joinedLoop E str fuel length state) := by
  intro fuel
  induction fuel with
  | zero =>
    intro length state width res _ h
    simp [clusterLoop] at h
  | succ fuel ih =>
    intro length state width res hlen h
    rw [clusterLoop_succ E str fp fuel length state width hlen] at h
    rw [joinedLoop]
    split at h
    · rename_i hb
      rw [if_pos hb]
      cases h
      rfl
    · rename_i hb
      rw [if_neg hb]
      split at h
      · rename_i he
        rw [if_pos he]
        cases h
        rfl
      · rename_i he
        rw [if_neg he, foldWidth_cons]
        exact ih _ _ _ res (by omega) h

/-- The width of the first cluster of a non-empty string: the width of the first
code point, updated by the loop for each joined code point. -/
theorem first_cluster_width (E : Env) (str : GoString) (state : Int) (res : Result)
    (hne : str ≠ []) (h : FirstGraphemeClusterInString E str state = .ok res) :
    res.width = foldWidth E (firstProp E str state)
      (runeWidth E (firstRune E str) (firstProp E str state)) (joined E str state) := by
  have hlen : 0 < str.length := List.length_pos.mpr hne
  unfold FirstGraphemeClusterInString at h
  rw [if_neg (by omega)] at h
  simp only [] at h
  unfold firstProp joined firstRune
  split at h
  · rename_i hs
    simp only [if_pos hs]
    cases h
    rfl
  · rename_i hs
    simp only [if_neg hs]
    have := clusterLoop_width E str _ _ _ _ _ res (by omega) h
    simpa using this

theorem joined_nil_of_empty (E : Env) (state : Int) : joined E [] state = [] := by
  simp [joined]

/-! ### Bounds on `runeWidth` and on the loop's width updates -/

theorem runeWidth_bounds (E : Env) (r p : Int)
    (hA : E.EastAsianAmbiguousWidth = 1 ∨ E.EastAsianAmbiguousWidth = 2) :
    0 ≤ runeWidth E r p ∧ runeWidth E r p ≤ 4
      ∧ (runeWidth E r p = 3 → r = 0x2e3a) ∧ (runeWidth E r p = 4 → r = 0x2e3b) := by
  unfold runeWidth
  split_ifs with h1 h2 h3 h4 h5 h6 h7 h8
  all_goals (try clear h1)
  all_goals (try clear h2)
  all_goals (try clear h3)
  all_goals (try clear h7)
  all_goals (try clear h8)
  all_goals omega

theorem vs16_ne_vs15 : vs16 ≠ vs15 := by decide

theorem runeWidth_pictographic_le (E : Env) (r : Int) :
    runeWidth E r E.prExtendedPictographic ≤ 2 := by
  unfold runeWidth
  split
  · norm_num
  · split
    · norm_num
    · rw [if_pos rfl]
      split <;> norm_num

theorem foldWidth_pictographic_le (E : Env) (fp : Int) (hfp : fp = E.prExtendedPictographic)
    (js : List (Int × Int)) :
    ∀ w : Int, 0 ≤ w → w ≤ 2 → 0 ≤ foldWidth E fp w js ∧ foldWidth E fp w js ≤ 2 := by
  induction js with
  | nil => intro w h0 h2; exact ⟨h0, h2⟩
  | cons q js ih =>
    intro w h0 h2
    rw [foldWidth_cons]
    apply ih
    · unfold joinWidth; rw [if_pos hfp]; split_ifs <;> omega
    · unfold joinWidth; rw [if_pos hfp]; split_ifs <;> omega

theorem foldWidth_no_selector (E : Env) (fp : Int) (hfp : fp = E.prExtendedPictographic)
    (js : List (Int × Int)) (hno : ∀ q ∈ js, q.1 ≠ vs15 ∧ q.1 ≠ vs16) :
    ∀ w : Int, foldWidth E fp w js = w := by
  induction js with
  | nil => intro w; rfl
  | cons q js ih =>
    intro w
    have hq := hno q (List.mem_cons_self _ _)
    rw [foldWidth_cons, ih (fun q1 h1 => hno q1 (List.mem_cons_of_mem _ h1))]
    unfold joinWidth
    rw [if_pos hfp, if_neg hq.1, if_neg hq.2]

theorem foldWidth_frozen (E : Env) (fp : Int)
    (hfp : fp = E.prRegionalIndicator ∨ fp = E.prL) (hp : fp ≠ E.prExtendedPictographic)
    (js : List (Int × Int)) : ∀ w : Int, foldWidth E fp w js = w := by
  induction js with
  | nil => intro w; rfl
  | cons q js ih =>
    intro w
    rw [foldWidth_cons, ih]
    unfold joinWidth
    rw [if_neg hp, if_neg (by tauto)]

theorem foldWidth_sum (E : Env) (fp : Int) (h1 : fp ≠ E.prExtendedPictographic)
    (h2 : fp ≠ E.prRegionalIndicator) (h3 : fp ≠ E.prL) (js : List (Int × Int)) :
    ∀ w : Int, foldWidth E fp w js = w + (js.map (fun q => runeWidth E q.1 q.2)).sum := by
  induction js with
  | nil => intro w; simp [foldWidth_nil]
  | cons q js ih =>
    intro w
    rw [foldWidth_cons, ih]
    unfold joinWidth
    rw [if_neg h1, if_pos ⟨h2, h3⟩]
    simp [add_assoc]

theorem foldWidth_bounds (E : Env) (fp : Int)
    (hA : E.EastAsianAmbiguousWidth = 1 ∨ E.EastAsianAmbiguousWidth = 2)
    (js : List (Int × Int)) :
    ∀ w : Int, 0 ≤ w → 0 ≤ foldWidth E fp w js ∧ foldWidth E fp w js ≤ max w 2 + 4 * js.length := by
  induction js with
  | nil => intro w h0; simp [foldWidth_nil, h0]
  | cons q js ih =>
    intro w h0
    rw [foldWidth_cons]
    have hb := runeWidth_bounds E q.1 q.2 hA
    have hj : 0 ≤ joinWidth E fp w q.1 q.2 ∧ joinWidth E fp w q.1 q.2 ≤ max w 2 + 4 := by
      unfold joinWidth
      have := le_max_left w 2
      have := le_max_right w 2
      split_ifs with c1 c2 c3 c4
      all_goals (try clear c1)
      all_goals (try clear c2)
      all_goals (try clear c3)
      all_goals (try clear c4)
      all_goals omega
    have := ih (joinWidth E fp w q.1 q.2) hj.1
    have hm : max (joinWidth E fp w q.1 q.2) 2 ≤ max w 2 + 4 := by
      have := le_max_right w 2
      exact max_le hj.2 (by omega)
    simp only [List.length_cons, Nat.cast_add, Nat.cast_one]
    omega


/-! ### The whole scan: `StringWidth` as a sum of cluster widths -/

theorem scan_widths (E : Env) (hE : DecoderAdvances E) :
    ∀ (fuel1 fuel2 : Nat) (s : GoString) (state w : Int), s.length ≤ fuel1 →
      s.length ≤ fuel2 →
      ∃ ws, widthsLoop E fuel1 s state = .ok ws
        ∧ stringWidthLoop E fuel2 s state w = .ok (w + ws.sum) := by
  intro fuel1
  induction fuel1 with
  | zero =>
    intro fuel2 s state w h1 _
    have : s = [] := List.length_eq_zero.mp (by omega)
    subst this
    exact ⟨[], by simp [widthsLoop], by simp [stringWidthLoop]⟩
  | succ fuel1 ih =>
    intro fuel2 s state w h1 h2
    cases s with
    | nil => exact ⟨[], by simp [widthsLoop], by simp [stringWidthLoop]⟩
    | cons b bs =>
      obtain ⟨res, hres, hcat, hle⟩ :=
        first_cluster_returns E hE (b :: bs) state (by simp)
      have hlen := congrArg List.length hcat
      simp only [List.length_append, List.length_cons] at hlen h1 h2
      cases fuel2 with
      | zero => omega
      | succ fuel2 =>
        obtain ⟨ws, hws, hsum⟩ :=
          ih fuel2 res.rest res.newState (w + res.width) (by omega) (by omega)
        refine ⟨res.width :: ws, ?_, ?_⟩
        · simp [widthsLoop, hres, hws]
        · simp [stringWidthLoop, hres, hsum, add_assoc]

theorem runeWidth_nonneg (E : Env) (r p : Int) (hA : 0 ≤ E.EastAsianAmbiguousWidth) :
    0 ≤ runeWidth E r p := by
  unfold runeWidth
  split_ifs with h1 h2 h3 h4 h5 h6 h7 h8
  all_goals (try clear h1)
  all_goals (try clear h7)
  all_goals omega

theorem foldWidth_nonneg (E : Env) (fp : Int) (hA : 0 ≤ E.EastAsianAmbiguousWidth)
    (js : List (Int × Int)) : ∀ w : Int, 0 ≤ w → 0 ≤ foldWidth E fp w js := by
  induction js with
  | nil => intro w h0; exact h0
  | cons q js ih =>
    intro w h0
    rw [foldWidth_cons]
    apply ih
    have := runeWidth_nonneg E q.1 q.2 hA
    unfold joinWidth
    split_ifs with c1 c2 c3 c4
    all_goals (try clear c4)
    all_goals omega

theorem first_cluster_width_nonneg (E : Env) (hA : 0 ≤ E.EastAsianAmbiguousWidth)
    (str : GoString) (state : Int) (res : Result)
    (hres : FirstGraphemeClusterInString E str state = .ok res) : 0 ≤ res.width := by
  by_cases hne : str = []
  · subst hne
    rw [first_cluster_empty] at hres
    cases hres
    exact le_refl _
  · rw [first_cluster_width E str state res hne hres]
    exact foldWidth_nonneg E _ hA _ _ (runeWidth_nonneg E _ _ hA)

theorem stringWidthLoop_nonneg (E : Env) (hA : 0 ≤ E.EastAsianAmbiguousWidth) :
    ∀ (fuel : Nat) (s : GoString) (state w v : Int), 0 ≤ w →
      stringWidthLoop E fuel s state w = .ok v → 0 ≤ v := by
  intro fuel
  induction fuel with
  | zero =>
    intro s state w v h0 h
    cases s with
    | nil => simp [stringWidthLoop] at h; omega
    | cons b bs => simp [stringWidthLoop] at h
  | succ fuel ih =>
    intro s state w v h0 h
    cases s with
    | nil => simp [stringWidthLoop] at h; omega
    | cons b bs =>
      rw [stringWidthLoop] at h
      split at h
      · cases h
      · rename_i res hres
        have := first_cluster_width_nonneg E hA (b :: bs) state res hres
        exact ih res.rest res.newState (w + res.width) v (by omega) h

/-! ### The state returned at a boundary -/

theorem lor_natCast (a b : Nat) : Int.lor (a : Int) (b : Int) = ((a ||| b : Nat) : Int) := rfl

theorem land_natCast (a b : Nat) : Int.land (a : Int) (b : Int) = ((a &&& b : Nat) : Int) := rfl

theorem shr_natCast (a k : Nat) : shr (a : Int) k = ((a >>> k : Nat) : Int) := rfl

/-- Packing a state below `2 ^ k` with a non-negative property shifted by `k`
bits, and unpacking it again. -/
theorem pack_unpack (k : Nat) (s p : Int) (hs0 : 0 ≤ s) (hs : s ≤ 2 ^ k - 1) (hp : 0 ≤ p) :
    Int.land (Int.lor s (shl p k)) (2 ^ k - 1) = s
      ∧ shr (Int.lor s (shl p k)) k = p
      ∧ 0 ≤ Int.lor s (shl p k) := by
  obtain ⟨a, rfl⟩ := Int.eq_ofNat_of_zero_le hs0
  obtain ⟨b, rfl⟩ := Int.eq_ofNat_of_zero_le hp
  have hpos : 0 < 2 ^ k := Nat.pow_pos (by norm_num)
  have ha : a < 2 ^ k := by
    have h1 : ((a : Nat) : Int) < 2 ^ k := by omega
    exact_mod_cast h1
  have hshl : shl (b : Int) k = ((2 ^ k * b : Nat) : Int) := by
    unfold shl
    push_cast
    ring
  have hmask : ((2 : Int) ^ k - 1) = ((2 ^ k - 1 : Nat) : Int) := by
    rw [Nat.cast_sub hpos]
    push_cast
    ring
  have hor : 2 ^ k * b ||| a = 2 ^ k * b + a := (Nat.mul_add_lt_is_or ha b).symm
  rw [hshl, hmask, lor_natCast, Nat.lor_comm, hor, land_natCast, shr_natCast,
    Nat.and_pow_two_sub_one_eq_mod, Nat.shiftRight_eq_div_pow]
  refine ⟨?_, ?_, ?_⟩
  · rw [Nat.mul_add_mod, Nat.mod_eq_of_lt ha]
  · rw [Nat.mul_add_div hpos, Nat.div_eq_of_lt ha, Nat.add_zero]
  · exact Int.natCast_nonneg _

theorem clusterLoop_boundary (E : Env) (str : GoString) (fp : Int) :
    ∀ (fuel length : Nat) (state width : Int) (res : Result), length ≤ str.length →
      clusterLoop E str fp fuel length state width = .ok res → res.rest ≠ [] →
      ∃ t st, boundaryLoop E str fuel length state = some t
        ∧ t = E.transitionGraphemeState (Int.land st E.maskGraphemeState)
              (firstRune E res.rest)
        ∧ t.2.2 = true
        ∧ res.newState = Int.lor t.1 (shl t.2.1 E.shiftGraphemePropState) := by
  intro fuel
  induction fuel with
  | zero =>
    intro length state width res _ h
    simp [clusterLoop] at h
  | succ fuel ih =>
    intro length state width res hlen h hrest
    rw [clusterLoop_succ E str fp fuel length state width hlen] at h
    rw [boundaryLoop]
    split at h
    · rename_i hb
      rw [if_pos hb]
      cases h
      exact ⟨_, state, rfl, rfl, hb, rfl⟩
    · rename_i hb
      rw [if_neg hb]
      split at h
      · cases h
        exact absurd rfl hrest
      · rename_i he
        rw [if_neg he]
        exact ih _ _ _ res (by omega) h hrest

theorem first_cluster_boundary (E : Env) (str : GoString) (state : Int) (res : Result)
    (hres : FirstGraphemeClusterInString E str state = .ok res) (hrest : res.rest ≠ []) :
    ∃ t st, boundaryStep E str state = some t
      ∧ t = E.transitionGraphemeState (Int.land st E.maskGraphemeState) (firstRune E res.rest)
      ∧ t.2.2 = true
      ∧ res.newState = Int.lor t.1 (shl t.2.1 E.shiftGraphemePropState) := by
  unfold FirstGraphemeClusterInString at hres
  split at hres
  · cases hres
    exact absurd rfl hrest
  · simp only [] at hres
    unfold boundaryStep firstRune
    split at hres
    · cases hres
      exact absurd rfl hrest
    · rename_i hs
      simp only [if_neg hs]
      exact clusterLoop_boundary E str _ _ _ _ _ res (by omega) hres hrest

theorem firstProp_of_nonneg (E : Env) (str : GoString) (state : Int) (h : 0 ≤ state) :
    firstProp E str state = shr state E.shiftGraphemePropState := by
  unfold firstProp
  have : ¬ state < 0 := by omega
  simp [this]

/-! ### The 64-bit widths against the integer widths -/

theorem wrap64_of_range (x : Int) (h0 : -2 ^ 63 ≤ x) (h1 : x < 2 ^ 63) : wrap64 x = x := by
  unfold wrap64
  omega

theorem wrap64_add_left (a b : Int) : wrap64 (wrap64 a + b) = wrap64 (a + b) := by
  unfold wrap64
  omega

theorem wrap64_add (a b : Int) : wrap64 (wrap64 a + wrap64 b) = wrap64 (a + b) := by
  unfold wrap64
  omega

theorem joinWidth64_wrap (E : Env) (fp w r p : Int) :
    joinWidth64 E fp (wrap64 w) r p = wrap64 (joinWidth E fp w r p) := by
  unfold joinWidth64 joinWidth
  split
  · split
    · exact (wrap64_of_range 1 (by norm_num) (by norm_num)).symm
    · split
      · exact (wrap64_of_range 2 (by norm_num) (by norm_num)).symm
      · rfl
  · split
    · exact wrap64_add_left w _
    · rfl

theorem runeWidth_in_range (E : Env) (r p : Int)
    (hR : -2 ^ 63 ≤ E.EastAsianAmbiguousWidth ∧ E.EastAsianAmbiguousWidth < 2 ^ 63) :
    -2 ^ 63 ≤ runeWidth E r p ∧ runeWidth E r p < 2 ^ 63 := by
  unfold runeWidth
  split_ifs with h1 h2 h3 h4 h5 h6 h7 h8
  all_goals (try clear h1)
  all_goals (try clear h7)
  all_goals omega

/-- One unfolding of the 64-bit loop when the index is inside the string. -/
theorem clusterLoop64_succ (E : Env) (str : GoString) (fp : Int) (fuel length : Nat)
    (state width : Int) (h : length ≤ str.length) :
    clusterLoop64 E str fp (fuel + 1) length state width =
      if (E.transitionGraphemeState (Int.land state E.maskGraphemeState)
            (E.DecodeRuneInString (str.drop length)).1).2.2 = true then
        .ok ⟨str.take length, str.drop length, width,
          Int.lor (E.transitionGraphemeState (Int.land state E.maskGraphemeState)
            (E.DecodeRuneInString (str.drop length)).1).1
            (shl (E.transitionGraphemeState (Int.land state E.maskGraphemeState)
              (E.DecodeRuneInString (str.drop length)).1).2.1 E.shiftGraphemePropState)⟩
      else if str.length ≤ length + (E.DecodeRuneInString (str.drop length)).2 then
        .ok ⟨str, [], joinWidth64 E fp width (E.DecodeRuneInString (str.drop length)).1
            (E.transitionGraphemeState (Int.land state E.maskGraphemeState)
              (E.DecodeRuneInString (str.drop length)).1).2.1,
          Int.lor E.grAny
            (shl (E.transitionGraphemeState (Int.land state E.maskGraphemeState)
              (E.DecodeRuneInString (str.drop length)).1).2.1 E.shiftGraphemePropState)⟩
      else
        clusterLoop64 E str fp fuel (length + (E.DecodeRuneInString (str.drop length)).2)
          (E.transitionGraphemeState (Int.land state E.maskGraphemeState)
            (E.DecodeRuneInString (str.drop length)).1).1
          (joinWidth64 E fp width (E.DecodeRuneInString (str.drop length)).1
            (E.transitionGraphemeState (Int.land state E.maskGraphemeState)
              (E.DecodeRuneInString (str.drop length)).1).2.1) := by
  rw [clusterLoop64]
  simp only [sliceFrom_ok str length h, sliceTo_ok str length h]

/-- The 64-bit loop returns what the integer loop returns, with the width
reduced to 64 bits. -/
theorem clusterLoop64_eq (E : Env) (str : GoString) (fp : Int) :
    ∀ (fuel length : Nat) (state w : Int),
      clusterLoop64 E str fp fuel length state (wrap64 w)
        = Except.map wrapWidth (clusterLoop E str fp fuel length state w) := by
  intro fuel
  induction fuel with
  | zero => intro length state w; rfl
  | succ fuel ih =>
    intro length state w
    by_cases hlen : length ≤ str.length
    · rw [clusterLoop_succ E str fp fuel length state w hlen,
        clusterLoop64_succ E str fp fuel length state (wrap64 w) hlen]
      split
      · rfl
      · split
        · rw [joinWidth64_wrap]
          rfl
        · rw [joinWidth64_wrap]
          exact ih _ _ _
    · rw [clusterLoop64, clusterLoop]
      simp only [sliceFrom, if_neg hlen]
      rfl

/-- The 64-bit call returns what the integer call returns, with the width
reduced to 64 bits. -/
theorem first_cluster64_eq (E : Env) (str : GoString) (state : Int)
    (hR : -2 ^ 63 ≤ E.EastAsianAmbiguousWidth ∧ E.EastAsianAmbiguousWidth < 2 ^ 63) :
    FirstGraphemeClusterInString64 E str state
      = Except.map wrapWidth (FirstGraphemeClusterInString E str state) := by
  unfold FirstGraphemeClusterInString64 FirstGraphemeClusterInString
  split
  · rfl
  · simp only []
    split
    · have h := runeWidth_in_range E (E.DecodeRuneInString str).1
        (if state < 0 then E.propertyGraphemes (E.DecodeRuneInString str).1
          else shr state E.shiftGraphemePropState) hR
      simp only [Except.map, wrapWidth, wrap64_of_range _ h.1 h.2]
    · exact clusterLoop64_eq E str _ _ _ _ _

theorem stringWidthLoop64_eq (E : Env)
    (hR : -2 ^ 63 ≤ E.EastAsianAmbiguousWidth ∧ E.EastAsianAmbiguousWidth < 2 ^ 63) :
    ∀ (fuel : Nat) (s : GoString) (state w : Int),
      stringWidthLoop64 E fuel s state (wrap64 w)
        = Except.map wrap64 (stringWidthLoop E fuel s state w) := by
  intro fuel
  induction fuel with
  | zero =>
    intro s state w
    cases s <;> rfl
  | succ fuel ih =>
    intro s state w
    cases s with
    | nil => rfl
    | cons b bs =>
      rw [stringWidthLoop64, stringWidthLoop, first_cluster64_eq E (b :: bs) state hR]
      cases FirstGraphemeClusterInString E (b :: bs) state with
      | error e => rfl
      | ok res =>
        simp only [Except.map, wrapWidth]
        rw [wrap64_add]
        exact ih _ _ _

/-! ### Upper bounds on the integer widths -/

theorem runeWidth_le_max (E : Env) (r p : Int) :
    runeWidth E r p ≤ max 4 E.EastAsianAmbiguousWidth := by
  have h4 := le_max_left 4 E.EastAsianAmbiguousWidth
  have hA := le_max_right 4 E.EastAsianAmbiguousWidth
  unfold runeWidth
  split_ifs with h1 h2 h3 h4 h5 h6 h7 h8
  all_goals (try clear h1)
  all_goals (try clear h7)
  all_goals omega

theorem joinWidth_le (E : Env) (fp w r p M : Int) (hM : 4 ≤ M) (h0 : 0 ≤ w)
    (hrw : runeWidth E r p ≤ M) : joinWidth E fp w r p ≤ w + M := by
  unfold joinWidth
  split_ifs with c1 c2 c3 c4
  all_goals (try clear c4)
  all_goals omega

theorem joinWidth_nonneg (E : Env) (fp w r p : Int) (h0 : 0 ≤ w)
    (hrw : 0 ≤ runeWidth E r p) : 0 ≤ joinWidth E fp w r p := by
  unfold joinWidth
  split_ifs with c1 c2 c3 c4
  all_goals (try clear c4)
  all_goals omega

theorem clusterLoop_width_le (E : Env) (hE : DecoderAdvances E)
    (hA : 0 ≤ E.EastAsianAmbiguousWidth) (str : GoString) (fp : Int) :
    ∀ (fuel length : Nat) (state width : Int) (res : Result), length < str.length →
      0 ≤ width → width ≤ max 4 E.EastAsianAmbiguousWidth * (length : Int) →
      clusterLoop E str fp fuel length state width = .ok res →
      res.width ≤ max 4 E.EastAsianAmbiguousWidth * (res.cluster.length : Int) := by
  have hM : (4 : Int) ≤ max 4 E.EastAsianAmbiguousWidth := le_max_left _ _
  generalize hMdef : max 4 E.EastAsianAmbiguousWidth = M at hM
  have hrw : ∀ r p, runeWidth E r p ≤ M := by
    intro r p
    rw [← hMdef]
    exact runeWidth_le_max E r p
  intro fuel
  induction fuel with
  | zero =>
    intro length state width res _ _ _ h
    simp [clusterLoop] at h
  | succ fuel ih =>
    intro length state width res hlt h0 hw h
    rw [clusterLoop_succ E str fp fuel length state width (Nat.le_of_lt hlt)] at h
    have hne : str.drop length ≠ [] := by
      intro h1
      have := congrArg List.length h1
      simp at this
      omega
    have hpos := hE _ hne
    have hj := joinWidth_le E fp width (E.DecodeRuneInString (str.drop length)).1
      (E.transitionGraphemeState (Int.land state E.maskGraphemeState)
        (E.DecodeRuneInString (str.drop length)).1).2.1 M hM h0 (hrw _ _)
    have hjn := joinWidth_nonneg E fp width (E.DecodeRuneInString (str.drop length)).1
      (E.transitionGraphemeState (Int.land state E.maskGraphemeState)
        (E.DecodeRuneInString (str.drop length)).1).2.1 h0 (runeWidth_nonneg E _ _ hA)
    split at h
    · cases h
      simp only [List.length_take, Nat.min_eq_left (Nat.le_of_lt hlt)]
      exact hw
    · split at h
      · cases h
        have h1 : (length : Int) + 1 ≤ (str.length : Int) := by exact_mod_cast hlt
        have h2 : M * ((length : Int) + 1) ≤ M * (str.length : Int) :=
          mul_le_mul_of_nonneg_left h1 (by omega)
        have h3 : M * ((length : Int) + 1) = M * (length : Int) + M := by ring
        simp only []
        omega
      · rename_i hend
        refine ih _ _ _ res (by omega) hjn ?_ h
        have h1 : (length : Int) + 1
            ≤ ((length + (E.DecodeRuneInString (str.drop length)).2 : Nat) : Int) := by
          exact_mod_cast Nat.add_le_add_left hpos length
        have h2 := mul_le_mul_of_nonneg_left h1 (show (0 : Int) ≤ M by omega)
        have h3 : M * ((length : Int) + 1) = M * (length : Int) + M := by ring
        omega

theorem first_cluster_width_le (E : Env) (hE : DecoderAdvances E)
    (hA : 0 ≤ E.EastAsianAmbiguousWidth) (str : GoString) (state : Int) (res : Result)
    (h : FirstGraphemeClusterInString E str state = .ok res) :
    res.width ≤ max 4 E.EastAsianAmbiguousWidth * (res.cluster.length : Int) := by
  have hM : (4 : Int) ≤ max 4 E.EastAsianAmbiguousWidth := le_max_left _ _
  by_cases hne : str = []
  · subst hne
    rw [first_cluster_empty] at h
    cases h
    simp
  · have hlen : 0 < str.length := List.length_pos.mpr hne
    have hpos := hE str hne
    unfold FirstGraphemeClusterInString at h
    rw [if_neg (by omega)] at h
    simp only [] at h
    split at h
    · cases h
      have h1 := runeWidth_le_max E (E.DecodeRuneInString str).1
        (if state < 0 then E.propertyGraphemes (E.DecodeRuneInString str).1
          else shr state E.shiftGraphemePropState)
      have h2 : (1 : Int) ≤ (str.length : Int) := by exact_mod_cast hlen
      have h3 := mul_le_mul_of_nonneg_left h2
        (show (0 : Int) ≤ max 4 E.EastAsianAmbiguousWidth by omega)
      simp only []
      omega
    · rename_i hs
      refine clusterLoop_width_le E hE hA str _ _ _ _ _ res (by omega) ?_ ?_ h
      · rw [zero_add]
        exact runeWidth_nonneg E _ _ hA
      · have h1 := runeWidth_le_max E (E.DecodeRuneInString str).1
          (if state < 0 then (E.transitionGraphemeState state (E.DecodeRuneInString str).1).2.1
            else shr state E.shiftGraphemePropState)
        have h2 : (1 : Int) ≤ ((E.DecodeRuneInString str).2 : Int) := by exact_mod_cast hpos
        have h3 := mul_le_mul_of_nonneg_left h2
          (show (0 : Int) ≤ max 4 E.EastAsianAmbiguousWidth by omega)
        omega

theorem stringWidthLoop_le (E : Env) (hE : DecoderAdvances E)
    (hA : 0 ≤ E.EastAsianAmbiguousWidth) :
    ∀ (fuel : Nat) (s : GoString) (state w v : Int),
      stringWidthLoop E fuel s state w = .ok v →
      v ≤ w + max 4 E.EastAsianAmbiguousWidth * (s.length : Int) := by
  have hM : (4 : Int) ≤ max 4 E.EastAsianAmbiguousWidth := le_max_left _ _
  intro fuel
  induction fuel with
  | zero =>
    intro s state w v h
    cases s with
    | nil => simp [stringWidthLoop] at h; simp [h]
    | cons b bs => simp [stringWidthLoop] at h
  | succ fuel ih =>
    intro s state w v h
    cases s with
    | nil => simp [stringWidthLoop] at h; simp [h]
    | cons b bs =>
      obtain ⟨res, hres, hcat, _⟩ := first_cluster_returns E hE (b :: bs) state (by simp)
      rw [stringWidthLoop, hres] at h
      have h1 := ih res.rest res.newState (w + res.width) v h
      have h2 := first_cluster_width_le E hE hA (b :: bs) state res hres
      have h3 : ((b :: bs).length : Int) = (res.cluster.length : Int) + (res.rest.length : Int) := by
        rw [← hcat]
        simp
      rw [h3, mul_add]
      omega


/-! ### The claims -/

/-- C1: for every string and state the call returns a cluster and a rest whose
concatenation is the input, and the clusters returned by successive calls, each
fed the previous rest and state, concatenate to the original string; this holds
for every property oracle and every automaton. -/
theorem clusters_partition_string (E : Env) (hE : DecoderAdvances E) (str : GoString)
    (state : Int) :
    (∃ res, FirstGraphemeClusterInString E str state = .ok res
        ∧ res.cluster ++ res.rest = str)
      ∧ (∃ cs, clustersLoop E str.length str state = .ok cs ∧ cs.flatten = str) := by
  refine ⟨?_, clustersLoop_returns E hE str.length str state (Nat.le_refl _)⟩
  cases str with
  | nil => exact ⟨_, first_cluster_empty E state, rfl⟩
  | cons b bs =>
    obtain ⟨res, hres, hcat, _⟩ := first_cluster_returns E hE (b :: bs) state (by simp)
    exact ⟨res, hres, hcat⟩

theorem clusters_partition_string_witness :
    DecoderAdvances demoEnv
      ∧ ((∃ res, FirstGraphemeClusterInString demoEnv [0x48, 0x69, 0xE4, 0xB8, 0xAD] (-1) = .ok res
            ∧ res.cluster ++ res.rest = [0x48, 0x69, 0xE4, 0xB8, 0xAD])
        ∧ (∃ cs, clustersLoop demoEnv
              (List.length ([0x48, 0x69, 0xE4, 0xB8, 0xAD] : GoString))
              [0x48, 0x69, 0xE4, 0xB8, 0xAD] (-1) = .ok cs
            ∧ cs.flatten = [0x48, 0x69, 0xE4, 0xB8, 0xAD])) :=
  ⟨demoEnv_advances,
    clusters_partition_string demoEnv demoEnv_advances [0x48, 0x69, 0xE4, 0xB8, 0xAD] (-1)⟩

/-- C2: on a non-empty string (valid UTF-8 or not) the call returns, without a
slice out of range, a non-empty cluster, so the rest is strictly shorter than
the input; and `StringWidth` returns a value on every string. The only fact
used about the decoder is that it consumes at least one byte of a non-empty
string. -/
theorem cluster_nonempty_and_width_total (E : Env) (hE : DecoderAdvances E)
    (str : GoString) (state : Int) :
    (str ≠ [] → ∃ res, FirstGraphemeClusterInString E str state = .ok res
        ∧ res.cluster ≠ [] ∧ res.rest.length < str.length)
      ∧ (∃ w, StringWidth E str = .ok w) := by
  refine ⟨?_, stringWidthLoop_returns E hE str.length str (-1) 0 (Nat.le_refl _)⟩
  intro hne
  obtain ⟨res, hres, hcat, hle⟩ := first_cluster_returns E hE str state hne
  refine ⟨res, hres, ?_, ?_⟩
  · intro h0
    rw [h0] at hle
    simp at hle
  · have := congrArg List.length hcat
    simp at this
    omega

theorem cluster_nonempty_and_width_total_witness :
    (∃ res, FirstGraphemeClusterInString demoEnv [0xFF, 0x80, 0xE4] 7 = .ok res
        ∧ res.cluster ≠ [] ∧ res.rest.length < List.length ([0xFF, 0x80, 0xE4] : GoString))
      ∧ (∃ w, StringWidth demoEnv [0xFF, 0x80, 0xE4] = .ok w) :=
  ⟨(cluster_nonempty_and_width_total demoEnv demoEnv_advances [0xFF, 0x80, 0xE4] 7).1
      (by decide),
    (cluster_nonempty_and_width_total demoEnv demoEnv_advances [0xFF, 0x80, 0xE4] 7).2⟩

/-- C3: `runeWidth(r, p)` is the value of the first matching rule of the ordered
list of the specification; in particular U+2E3A has width 3 and U+2E3B width 4
for every property not matched by rules 1 to 3, whatever the East Asian Width
oracle says. -/
theorem runeWidth_first_matching_rule (E : Env) (r p : Int) :
    firstMatch (widthRules E r p) = some (runeWidth E r p)
      ∧ (¬(p = E.prControl ∨ p = E.prCR ∨ p = E.prLF ∨ p = E.prExtend ∨ p = E.prZWJ) →
          p ≠ E.prRegionalIndicator → p ≠ E.prExtendedPictographic →
          runeWidth E 0x2e3a p = 3 ∧ runeWidth E 0x2e3b p = 4) := by
  constructor
  · unfold runeWidth widthRules
    simp only [firstMatch, decide_eq_true_eq]
    split_ifs <;> rfl
  · intro h1 h2 h3
    unfold runeWidth
    rw [if_neg h1, if_neg h2, if_neg h3, if_neg h1, if_neg h2, if_neg h3]
    constructor
    · simp
    · simp

theorem runeWidth_first_matching_rule_witness :
    runeWidth demoEnv 0x2e3a 0 = 3 ∧ runeWidth demoEnv 0x2e3b 0 = 4 :=
  (runeWidth_first_matching_rule demoEnv 0x4E2D 0).2 (by decide) (by decide) (by decide)

/-- C4: the order of the doc comment of `runeWidth` and the order of its code
give different widths: for U+3030 (Extended Pictographic, East Asian Wide, no
emoji presentation) the code returns 1 where the doc comment's order gives 2, and
for U+2E3A with property Regional Indicator the code returns 2 where the doc
comment's order gives 3. -/
theorem runeWidth_differs_from_doc_order :
    runeWidth demoEnv 0x3030 demoEnv.prExtendedPictographic = 1
      ∧ firstMatch (docRules demoEnv 0x3030 demoEnv.prExtendedPictographic) = some 2
      ∧ demoEnv.propertyEastAsianWidth 0x3030 = demoEnv.prW
      ∧ demoEnv.propertyEmojiPresentation 0x3030 ≠ demoEnv.prEmojiPresentation
      ∧ runeWidth demoEnv 0x2e3a demoEnv.prRegionalIndicator = 2
      ∧ firstMatch (docRules demoEnv 0x2e3a demoEnv.prRegionalIndicator) = some 3 := by
  refine ⟨by decide, by decide, by decide, by decide, by decide, by decide⟩

/-- C5: with the ambiguous width set to 1 or 2, `runeWidth(r, p)` is one of
0, 1, 2, 3, 4; it is 3 only for U+2E3A and 4 only for U+2E3B, and every other
code point gets 0, 1 or 2. -/
theorem runeWidth_range (E : Env) (r p : Int)
    (hA : E.EastAsianAmbiguousWidth = 1 ∨ E.EastAsianAmbiguousWidth = 2) :
    (runeWidth E r p = 0 ∨ runeWidth E r p = 1 ∨ runeWidth E r p = 2
        ∨ runeWidth E r p = 3 ∨ runeWidth E r p = 4)
      ∧ (runeWidth E r p = 3 → r = 0x2e3a)
      ∧ (runeWidth E r p = 4 → r = 0x2e3b)
      ∧ (r ≠ 0x2e3a → r ≠ 0x2e3b →
          runeWidth E r p = 0 ∨ runeWidth E r p = 1 ∨ runeWidth E r p = 2) := by
  obtain ⟨h0, h4, h3a, h4a⟩ := runeWidth_bounds E r p hA
  refine ⟨by omega, h3a, h4a, ?_⟩
  intro n1 n2
  have : runeWidth E r p ≠ 3 := fun h => n1 (h3a h)
  have : runeWidth E r p ≠ 4 := fun h => n2 (h4a h)
  omega

theorem runeWidth_range_witness :
    (runeWidth demoEnv 0x2e3a 0 = 0 ∨ runeWidth demoEnv 0x2e3a 0 = 1
        ∨ runeWidth demoEnv 0x2e3a 0 = 2 ∨ runeWidth demoEnv 0x2e3a 0 = 3
        ∨ runeWidth demoEnv 0x2e3a 0 = 4)
      ∧ (runeWidth demoEnv 0x2e3a 0 = 3 → (0x2e3a : Int) = 0x2e3a)
      ∧ (runeWidth demoEnv 0x2e3a 0 = 4 → (0x2e3a : Int) = 0x2e3b)
      ∧ ((0x2e3a : Int) ≠ 0x2e3a → (0x2e3a : Int) ≠ 0x2e3b →
          runeWidth demoEnv 0x2e3a 0 = 0 ∨ runeWidth demoEnv 0x2e3a 0 = 1
            ∨ runeWidth demoEnv 0x2e3a 0 = 2) :=
  runeWidth_range demoEnv 0x2e3a 0 (Or.inl rfl)


/-- C6, as stated, fails: the cluster U+0600 U+4E2D (a Prepend code point
joined with a wide one) has width 3 although neither code point is a dash. -/
theorem cluster_width_three_without_dash :
    FirstGraphemeClusterInString demoEnv [0xD8, 0x80, 0xE4, 0xB8, 0xAD] (-1)
        = .ok ⟨[0xD8, 0x80, 0xE4, 0xB8, 0xAD], [], 3, 0⟩
      ∧ firstRune demoEnv [0xD8, 0x80, 0xE4, 0xB8, 0xAD] = 0x0600
      ∧ joined demoEnv [0xD8, 0x80, 0xE4, 0xB8, 0xAD] (-1) = [(0x4E2D, 0)]
      ∧ demoEnv.EastAsianAmbiguousWidth = 1 := by
  refine ⟨by rfl, by rfl, by rfl, by rfl⟩

/-- C6, amended: with the ambiguous width set to 1 or 2, the width of a cluster
lies between 0 and four times its number of code points; it is at most 2 when
the first property is Extended Pictographic; and when the cluster is a single
code point or its first property is Extended Pictographic, Regional Indicator or
Hangul L, it is at most 4, being 3 only if the first code point is U+2E3A and 4
only if it is U+2E3B. -/
theorem cluster_width_bounds (E : Env) (str : GoString) (state : Int) (res : Result)
    (hA : E.EastAsianAmbiguousWidth = 1 ∨ E.EastAsianAmbiguousWidth = 2)
    (hres : FirstGraphemeClusterInString E str state = .ok res) :
    0 ≤ res.width ∧ res.width ≤ 4 * (1 + ((joined E str state).length : Int))
      ∧ (firstProp E str state = E.prExtendedPictographic → res.width ≤ 2)
      ∧ ((joined E str state = [] ∨ firstProp E str state = E.prExtendedPictographic
            ∨ firstProp E str state = E.prRegionalIndicator ∨ firstProp E str state = E.prL) →
          res.width ≤ 4 ∧ (res.width = 3 → firstRune E str = 0x2e3a)
            ∧ (res.width = 4 → firstRune E str = 0x2e3b)) := by
  by_cases hne : str = []
  · subst hne
    rw [first_cluster_empty] at hres
    cases hres
    simp only [joined_nil_of_empty]
    refine ⟨by simp, by simp, fun _ => by simp, fun _ => ⟨by simp, by simp, by simp⟩⟩
  · have hw := first_cluster_width E str state res hne hres
    obtain ⟨b0, b4, b3a, b4a⟩ :=
      runeWidth_bounds E (firstRune E str) (firstProp E str state) hA
    have hfold := foldWidth_bounds E (firstProp E str state) hA (joined E str state)
      (runeWidth E (firstRune E str) (firstProp E str state)) b0
    have hpict : firstProp E str state = E.prExtendedPictographic → res.width ≤ 2 := by
      intro hfp
      have h2 : runeWidth E (firstRune E str) (firstProp E str state) ≤ 2 := by
        rw [hfp]
        exact runeWidth_pictographic_le E _
      rw [hw]
      exact (foldWidth_pictographic_le E _ hfp _ _ b0 h2).2
    refine ⟨by rw [hw]; exact hfold.1, ?_, hpict, ?_⟩
    · rw [hw]
      have hm : max (runeWidth E (firstRune E str) (firstProp E str state)) 2 ≤ 4 :=
        max_le b4 (by norm_num)
      have := hfold.2
      omega
    · intro hcase
      by_cases hp : firstProp E str state = E.prExtendedPictographic
      · have := hpict hp
        refine ⟨by omega, fun h => by omega, fun h => by omega⟩
      · have hsame : res.width = runeWidth E (firstRune E str) (firstProp E str state) := by
          rcases hcase with h | h | h | h
          · rw [hw, h, foldWidth_nil]
          · exact absurd h hp
          · rw [hw, foldWidth_frozen E _ (Or.inl h) hp]
          · rw [hw, foldWidth_frozen E _ (Or.inr h) hp]
        rw [hsame]
        exact ⟨b4, b3a, b4a⟩

theorem cluster_width_bounds_witness :
    0 ≤ (3 : Int)
      ∧ (3 : Int) ≤ 4 * (1 + ((joined demoEnv [0xD8, 0x80, 0xE4, 0xB8, 0xAD] (-1)).length : Int))
      ∧ (firstProp demoEnv [0xD8, 0x80, 0xE4, 0xB8, 0xAD] (-1)
            = demoEnv.prExtendedPictographic → (3 : Int) ≤ 2)
      ∧ ((joined demoEnv [0xD8, 0x80, 0xE4, 0xB8, 0xAD] (-1) = []
            ∨ firstProp demoEnv [0xD8, 0x80, 0xE4, 0xB8, 0xAD] (-1)
                = demoEnv.prExtendedPictographic
            ∨ firstProp demoEnv [0xD8, 0x80, 0xE4, 0xB8, 0xAD] (-1)
                = demoEnv.prRegionalIndicator
            ∨ firstProp demoEnv [0xD8, 0x80, 0xE4, 0xB8, 0xAD] (-1) = demoEnv.prL) →
          (3 : Int) ≤ 4
            ∧ ((3 : Int) = 3 → firstRune demoEnv [0xD8, 0x80, 0xE4, 0xB8, 0xAD] = 0x2e3a)
            ∧ ((3 : Int) = 4 → firstRune demoEnv [0xD8, 0x80, 0xE4, 0xB8, 0xAD] = 0x2e3b)) :=
  cluster_width_bounds demoEnv [0xD8, 0x80, 0xE4, 0xB8, 0xAD] (-1)
    ⟨[0xD8, 0x80, 0xE4, 0xB8, 0xAD], [], 3, 0⟩ (Or.inl rfl) (by rfl)

/-- C7: when the first property of the cluster is Extended Pictographic and the
last code point joined to the cluster is VS-15 (U+FE0E) the returned width is 1,
and when it is VS-16 (U+FE0F) the returned width is 2, whatever the width of the
pictographic itself and whatever was joined in between. -/
theorem variation_selector_override (E : Env) (str : GoString) (state : Int) (res : Result)
    (hres : FirstGraphemeClusterInString E str state = .ok res)
    (hfp : firstProp E str state = E.prExtendedPictographic) :
    (∀ p, (joined E str state).getLast? = some (vs15, p) → res.width = 1)
      ∧ (∀ p, (joined E str state).getLast? = some (vs16, p) → res.width = 2) := by
  have hne : ∀ q, (joined E str state).getLast? = some q → str ≠ [] := by
    intro q hq h0
    rw [h0, joined_nil_of_empty] at hq
    simp at hq
  constructor
  · intro p hp
    have hw := first_cluster_width E str state res (hne _ hp) hres
    obtain ⟨ys, hys⟩ := List.getLast?_eq_some_iff.mp hp
    rw [hw, hys, foldWidth_append, foldWidth_cons, foldWidth_nil]
    unfold joinWidth
    rw [if_pos hfp, if_pos rfl]
  · intro p hp
    have hw := first_cluster_width E str state res (hne _ hp) hres
    obtain ⟨ys, hys⟩ := List.getLast?_eq_some_iff.mp hp
    rw [hw, hys, foldWidth_append, foldWidth_cons, foldWidth_nil]
    have h16 : ¬((vs16, p).1 = vs15) := vs16_ne_vs15
    unfold joinWidth
    rw [if_pos hfp, if_neg h16, if_pos rfl]

theorem variation_selector_override_witness :
    FirstGraphemeClusterInString demoEnv [0xF0, 0x9F, 0x91, 0xA8, 0xEF, 0xB8, 0x8E] (-1)
        = .ok ⟨[0xF0, 0x9F, 0x91, 0xA8, 0xEF, 0xB8, 0x8E], [], 1, 80⟩
      ∧ firstProp demoEnv [0xF0, 0x9F, 0x91, 0xA8, 0xEF, 0xB8, 0x8E] (-1)
        = demoEnv.prExtendedPictographic
      ∧ runeWidth demoEnv 0x1F468 demoEnv.prExtendedPictographic = 2
      ∧ (joined demoEnv [0xF0, 0x9F, 0x91, 0xA8, 0xEF, 0xB8, 0x8E] (-1)).getLast?
        = some (vs15, 5)
      ∧ Result.width ⟨[0xF0, 0x9F, 0x91, 0xA8, 0xEF, 0xB8, 0x8E], [], 1, 80⟩ = 1
      ∧ FirstGraphemeClusterInString demoEnv [0xE2, 0x9D, 0xA4, 0xEF, 0xB8, 0x8F] (-1)
        = .ok ⟨[0xE2, 0x9D, 0xA4, 0xEF, 0xB8, 0x8F], [], 2, 80⟩
      ∧ runeWidth demoEnv 0x2764 demoEnv.prExtendedPictographic = 1
      ∧ Result.width ⟨[0xE2, 0x9D, 0xA4, 0xEF, 0xB8, 0x8F], [], 2, 80⟩ = 2 :=
  ⟨by rfl, by rfl, by rfl, by rfl,
    (variation_selector_override demoEnv [0xF0, 0x9F, 0x91, 0xA8, 0xEF, 0xB8, 0x8E] (-1)
      ⟨[0xF0, 0x9F, 0x91, 0xA8, 0xEF, 0xB8, 0x8E], [], 1, 80⟩ (by rfl) (by rfl)).1 5 (by rfl),
    by rfl, by rfl,
    (variation_selector_override demoEnv [0xE2, 0x9D, 0xA4, 0xEF, 0xB8, 0x8F] (-1)
      ⟨[0xE2, 0x9D, 0xA4, 0xEF, 0xB8, 0x8F], [], 2, 80⟩ (by rfl) (by rfl)).2 5 (by rfl)⟩


/-- When the whole string is one cluster, `StringWidth` is the width of that
cluster. -/
theorem stringWidth_single_cluster (E : Env) (str : GoString) (res : Result)
    (hne : str ≠ []) (hres : FirstGraphemeClusterInString E str (-1) = .ok res)
    (hrest : res.rest = []) : StringWidth E str = .ok res.width := by
  cases str with
  | nil => exact absurd rfl hne
  | cons b bs =>
    unfold StringWidth
    rw [List.length_cons, stringWidthLoop, hres]
    simp only []
    rw [hrest]
    cases bs.length <;> simp [stringWidthLoop]

/-- C8: when the first property of the cluster is Regional Indicator or Hangul L
(enumeration constants different from Extended Pictographic), the returned width
is `runeWidth` of the first code point alone, however many code points were
joined; so a flag has width 2 (Regional Indicator not being one of the
zero-width properties), and when the flag is the whole string `StringWidth`
returns 2. -/
theorem regional_indicator_width (E : Env) (str : GoString) (state : Int) (res : Result)
    (hres : FirstGraphemeClusterInString E str state = .ok res) (hne : str ≠ [])
    (hfp : firstProp E str state = E.prRegionalIndicator ∨ firstProp E str state = E.prL)
    (hd : E.prExtendedPictographic ≠ E.prRegionalIndicator
      ∧ E.prExtendedPictographic ≠ E.prL) :
    res.width = runeWidth E (firstRune E str) (firstProp E str state)
      ∧ (firstProp E str state = E.prRegionalIndicator →
          ¬(E.prRegionalIndicator = E.prControl ∨ E.prRegionalIndicator = E.prCR
            ∨ E.prRegionalIndicator = E.prLF ∨ E.prRegionalIndicator = E.prExtend
            ∨ E.prRegionalIndicator = E.prZWJ) →
          res.width = 2
            ∧ (state = -1 → res.rest = [] → StringWidth E str = .ok 2)) := by
  have hp : firstProp E str state ≠ E.prExtendedPictographic := by
    rcases hfp with h | h
    · rw [h]; exact fun h1 => hd.1 h1.symm
    · rw [h]; exact fun h1 => hd.2 h1.symm
  have hw := first_cluster_width E str state res hne hres
  rw [foldWidth_frozen E _ hfp hp] at hw
  refine ⟨hw, ?_⟩
  intro hri hz
  have h2 : res.width = 2 := by
    rw [hw, hri]
    unfold runeWidth
    rw [if_neg hz, if_pos rfl]
  refine ⟨h2, ?_⟩
  intro hs hrest
  subst hs
  rw [stringWidth_single_cluster E str res hne hres hrest, h2]

theorem regional_indicator_width_witness :
    FirstGraphemeClusterInString demoEnv [0xF0, 0x9F, 0x87, 0xA9, 0xF0, 0x9F, 0x87, 0xAA] (-1)
        = .ok ⟨[0xF0, 0x9F, 0x87, 0xA9, 0xF0, 0x9F, 0x87, 0xAA], [], 2, 96⟩
      ∧ firstProp demoEnv [0xF0, 0x9F, 0x87, 0xA9, 0xF0, 0x9F, 0x87, 0xAA] (-1)
        = demoEnv.prRegionalIndicator
      ∧ joined demoEnv [0xF0, 0x9F, 0x87, 0xA9, 0xF0, 0x9F, 0x87, 0xAA] (-1)
        = [(0x1F1EA, demoEnv.prRegionalIndicator)]
      ∧ Result.width ⟨[0xF0, 0x9F, 0x87, 0xA9, 0xF0, 0x9F, 0x87, 0xAA], [], 2, 96⟩ = 2
      ∧ StringWidth demoEnv [0xF0, 0x9F, 0x87, 0xA9, 0xF0, 0x9F, 0x87, 0xAA] = .ok 2 :=
  ⟨by rfl, by rfl, by rfl,
    ((regional_indicator_width demoEnv [0xF0, 0x9F, 0x87, 0xA9, 0xF0, 0x9F, 0x87, 0xAA] (-1)
      ⟨[0xF0, 0x9F, 0x87, 0xA9, 0xF0, 0x9F, 0x87, 0xAA], [], 2, 96⟩ (by rfl) (by simp)
      (Or.inl (by rfl)) (by decide)).2 (by rfl) (by decide)).1,
    ((regional_indicator_width demoEnv [0xF0, 0x9F, 0x87, 0xA9, 0xF0, 0x9F, 0x87, 0xAA] (-1)
      ⟨[0xF0, 0x9F, 0x87, 0xA9, 0xF0, 0x9F, 0x87, 0xAA], [], 2, 96⟩ (by rfl) (by simp)
      (Or.inl (by rfl)) (by decide)).2 (by rfl) (by decide)).2 rfl rfl⟩

/-- C9: when the first property of the cluster is Extended Pictographic and no
joined code point is VS-15 or VS-16, the returned width is `runeWidth` of the
first code point with property Extended Pictographic, the joined code points
adding nothing; so an emoji ZWJ sequence whose first code point has emoji
presentation has width 2. -/
theorem pictographic_cluster_width (E : Env) (str : GoString) (state : Int) (res : Result)
    (hres : FirstGraphemeClusterInString E str state = .ok res) (hne : str ≠ [])
    (hfp : firstProp E str state = E.prExtendedPictographic)
    (hno : ∀ q ∈ joined E str state, q.1 ≠ vs15 ∧ q.1 ≠ vs16) :
    res.width = runeWidth E (firstRune E str) E.prExtendedPictographic
      ∧ (¬(E.prExtendedPictographic = E.prControl ∨ E.prExtendedPictographic = E.prCR
            ∨ E.prExtendedPictographic = E.prLF ∨ E.prExtendedPictographic = E.prExtend
            ∨ E.prExtendedPictographic = E.prZWJ) →
          E.prExtendedPictographic ≠ E.prRegionalIndicator →
          E.propertyEmojiPresentation (firstRune E str) = E.prEmojiPresentation →
          res.width = 2) := by
  have hw := first_cluster_width E str state res hne hres
  rw [foldWidth_no_selector E _ hfp _ hno, hfp] at hw
  refine ⟨hw, ?_⟩
  intro hz hr he
  rw [hw]
  unfold runeWidth
  rw [if_neg hz, if_neg hr, if_pos rfl, if_pos he]

theorem pictographic_cluster_width_witness :
    FirstGraphemeClusterInString demoEnv
        [0xF0, 0x9F, 0x91, 0xA8, 0xE2, 0x80, 0x8D, 0xF0, 0x9F, 0x91, 0xA9, 0xE2, 0x80, 0x8D,
          0xF0, 0x9F, 0x91, 0xA6] (-1)
        = .ok ⟨[0xF0, 0x9F, 0x91, 0xA8, 0xE2, 0x80, 0x8D, 0xF0, 0x9F, 0x91, 0xA9, 0xE2, 0x80,
          0x8D, 0xF0, 0x9F, 0x91, 0xA6], [], 2, 224⟩
      ∧ joined demoEnv
        [0xF0, 0x9F, 0x91, 0xA8, 0xE2, 0x80, 0x8D, 0xF0, 0x9F, 0x91, 0xA9, 0xE2, 0x80, 0x8D,
          0xF0, 0x9F, 0x91, 0xA6] (-1)
        = [(0x200D, 13), (0x1F469, 14), (0x200D, 13), (0x1F466, 14)]
      ∧ runeWidth demoEnv 0x1F469 14 = 2
      ∧ Result.width ⟨[0xF0, 0x9F, 0x91, 0xA8, 0xE2, 0x80, 0x8D, 0xF0, 0x9F, 0x91, 0xA9, 0xE2,
          0x80, 0x8D, 0xF0, 0x9F, 0x91, 0xA6], [], 2, 224⟩ = 2 :=
  ⟨by rfl, by rfl, by rfl,
    (pictographic_cluster_width demoEnv
      [0xF0, 0x9F, 0x91, 0xA8, 0xE2, 0x80, 0x8D, 0xF0, 0x9F, 0x91, 0xA9, 0xE2, 0x80, 0x8D,
        0xF0, 0x9F, 0x91, 0xA6] (-1)
      ⟨[0xF0, 0x9F, 0x91, 0xA8, 0xE2, 0x80, 0x8D, 0xF0, 0x9F, 0x91, 0xA9, 0xE2, 0x80, 0x8D,
        0xF0, 0x9F, 0x91, 0xA6], [], 2, 224⟩ (by rfl) (by simp) (by rfl)
      (by
        rw [show joined demoEnv
          [0xF0, 0x9F, 0x91, 0xA8, 0xE2, 0x80, 0x8D, 0xF0, 0x9F, 0x91, 0xA9, 0xE2, 0x80, 0x8D,
            0xF0, 0x9F, 0x91, 0xA6] (-1)
          = [(0x200D, 13), (0x1F469, 14), (0x200D, 13), (0x1F466, 14)] from by rfl]
        decide)).2 (by decide) (by decide) (by rfl)⟩

/-- C10: when the first property of the cluster is none of Extended
Pictographic, Regional Indicator and Hangul L, the returned width is the sum of
`runeWidth` over all code points of the cluster, each with the property the
automaton reported for it (the resolved first property for the first one); so
when every joined code point has property Extend the width is that of the first
code point. -/
theorem cluster_width_is_sum (E : Env) (str : GoString) (state : Int) (res : Result)
    (hres : FirstGraphemeClusterInString E str state = .ok res) (hne : str ≠ [])
    (h1 : firstProp E str state ≠ E.prExtendedPictographic)
    (h2 : firstProp E str state ≠ E.prRegionalIndicator)
    (h3 : firstProp E str state ≠ E.prL) :
    res.width = runeWidth E (firstRune E str) (firstProp E str state)
        + ((joined E str state).map (fun q => runeWidth E q.1 q.2)).sum
      ∧ ((∀ q ∈ joined E str state, q.2 = E.prExtend) →
          res.width = runeWidth E (firstRune E str) (firstProp E str state)) := by
  have hw := first_cluster_width E str state res hne hres
  rw [foldWidth_sum E _ h1 h2 h3] at hw
  refine ⟨hw, ?_⟩
  intro hext
  have hz : ((joined E str state).map (fun q => runeWidth E q.1 q.2)).sum = 0 := by
    apply List.sum_eq_zero
    intro x hx
    obtain ⟨q, hq, rfl⟩ := List.mem_map.mp hx
    rw [hext q hq]
    unfold runeWidth
    rw [if_pos (by tauto)]
  rw [hw, hz, add_zero]

theorem cluster_width_is_sum_witness :
    FirstGraphemeClusterInString demoEnv [0x65, 0xCC, 0x81] (-1)
        = .ok ⟨[0x65, 0xCC, 0x81], [], 1, 80⟩
      ∧ firstRune demoEnv [0x65, 0xCC, 0x81] = 0x65
      ∧ joined demoEnv [0x65, 0xCC, 0x81] (-1) = [(0x0301, demoEnv.prExtend)]
      ∧ firstProp demoEnv [0x65, 0xCC, 0x81] (-1) = 0
      ∧ Result.width ⟨[0x65, 0xCC, 0x81], [], 1, 80⟩
        = runeWidth demoEnv (firstRune demoEnv [0x65, 0xCC, 0x81])
            (firstProp demoEnv [0x65, 0xCC, 0x81] (-1))
          + ((joined demoEnv [0x65, 0xCC, 0x81] (-1)).map
              (fun q => runeWidth demoEnv q.1 q.2)).sum
      ∧ runeWidth demoEnv 0x65 0 = 1 ∧ runeWidth demoEnv 0x0301 demoEnv.prExtend = 0 :=
  ⟨by rfl, by rfl, by rfl, by rfl,
    (cluster_width_is_sum demoEnv [0x65, 0xCC, 0x81] (-1) ⟨[0x65, 0xCC, 0x81], [], 1, 80⟩
      (by rfl) (by simp) (by decide) (by decide) (by decide)).1,
    by rfl, by rfl⟩

/-- C11: `StringWidth(s)` is the sum of the widths returned by the successive
calls of `FirstGraphemeClusterInString`, starting from `s` with state -1 and
feeding each call the rest and the state of the previous one until the rest is
empty; `StringWidth("")` is 0; and for a non-empty `s` it is the width of the
first cluster plus the sum of the widths of the clusters of the rest, extracted
from the returned state. -/
theorem stringWidth_sum_of_cluster_widths (E : Env) (hE : DecoderAdvances E)
    (s : GoString) :
    (∃ ws, widthsLoop E s.length s (-1) = .ok ws ∧ StringWidth E s = .ok ws.sum)
      ∧ StringWidth E [] = .ok 0
      ∧ (∀ res, s ≠ [] → FirstGraphemeClusterInString E s (-1) = .ok res →
          ∃ ws, widthsLoop E res.rest.length res.rest res.newState = .ok ws
            ∧ StringWidth E s = .ok (res.width + ws.sum)) := by
  refine ⟨?_, by simp [StringWidth, stringWidthLoop], ?_⟩
  · obtain ⟨ws, h1, h2⟩ :=
      scan_widths E hE s.length s.length s (-1) 0 (Nat.le_refl _) (Nat.le_refl _)
    exact ⟨ws, h1, by simpa [StringWidth] using h2⟩
  · intro res hne hres
    obtain ⟨res1, hres1, hcat, hle⟩ := first_cluster_returns E hE s (-1) hne
    rw [hres] at hres1
    cases hres1
    have hlen := congrArg List.length hcat
    cases s with
    | nil => exact absurd rfl hne
    | cons b bs =>
      simp only [List.length_append, List.length_cons] at hlen
      obtain ⟨ws, h1, h2⟩ := scan_widths E hE res.rest.length bs.length res.rest
        res.newState (0 + res.width) (Nat.le_refl _) (by omega)
      refine ⟨ws, h1, ?_⟩
      unfold StringWidth
      rw [List.length_cons, stringWidthLoop, hres]
      simpa using h2

theorem stringWidth_sum_of_cluster_widths_witness :
    widthsLoop demoEnv 6 [0x65, 0xCC, 0x81, 0xE4, 0xB8, 0xAD] (-1) = .ok [1, 2]
      ∧ StringWidth demoEnv [0x65, 0xCC, 0x81, 0xE4, 0xB8, 0xAD] = .ok 3
      ∧ ((∃ ws, widthsLoop demoEnv (List.length ([0x65, 0xCC, 0x81, 0xE4, 0xB8, 0xAD] : GoString))
              [0x65, 0xCC, 0x81, 0xE4, 0xB8, 0xAD] (-1) = .ok ws
            ∧ StringWidth demoEnv [0x65, 0xCC, 0x81, 0xE4, 0xB8, 0xAD] = .ok ws.sum)
        ∧ StringWidth demoEnv [] = .ok 0
        ∧ (∀ res, ([0x65, 0xCC, 0x81, 0xE4, 0xB8, 0xAD] : GoString) ≠ [] →
            FirstGraphemeClusterInString demoEnv [0x65, 0xCC, 0x81, 0xE4, 0xB8, 0xAD] (-1)
              = .ok res →
            ∃ ws, widthsLoop demoEnv res.rest.length res.rest res.newState = .ok ws
              ∧ StringWidth demoEnv [0x65, 0xCC, 0x81, 0xE4, 0xB8, 0xAD]
                = .ok (res.width + ws.sum))) :=
  ⟨by rfl, by rfl,
    stringWidth_sum_of_cluster_widths demoEnv demoEnv_advances
      [0x65, 0xCC, 0x81, 0xE4, 0xB8, 0xAD]⟩

/-- C12: on the empty string the call returns the all-zero result, an empty
cluster, an empty rest, width 0 and state 0, whatever state was passed in and
whatever the oracle and the automaton are. -/
theorem empty_string_zero_result (E : Env) (state : Int) :
    FirstGraphemeClusterInString E [] state = .ok ⟨[], [], 0, 0⟩
      ∧ (∀ (E2 : Env) (state2 : Int),
          FirstGraphemeClusterInString E2 [] state2
            = FirstGraphemeClusterInString E [] state) := by
  refine ⟨first_cluster_empty E state, ?_⟩
  intro E2 state2
  rw [first_cluster_empty, first_cluster_empty]

/-- C13: when the first decoded code point `r` is the whole of a non-empty
string, the call returns the string as cluster, an empty rest, the width
`runeWidth(r, prop)` and the state `grAny | (prop << shiftGraphemePropState)`,
where `prop` is `propertyGraphemes(r)` for a negative state and
`state >> shiftGraphemePropState` otherwise; the automaton plays no part. -/
theorem single_code_point_result (E : Env) (str : GoString) (state : Int)
    (hne : str ≠ []) (hone : str.length ≤ (E.DecodeRuneInString str).2) :
    FirstGraphemeClusterInString E str state
        = .ok ⟨str, [],
            runeWidth E (E.DecodeRuneInString str).1
              (if state < 0 then E.propertyGraphemes (E.DecodeRuneInString str).1
                else shr state E.shiftGraphemePropState),
            Int.lor E.grAny
              (shl (if state < 0 then E.propertyGraphemes (E.DecodeRuneInString str).1
                else shr state E.shiftGraphemePropState) E.shiftGraphemePropState)⟩
      ∧ (∀ T : Int → Int → Int × Int × Bool,
          FirstGraphemeClusterInString (withAutomaton E T) str state
            = FirstGraphemeClusterInString E str state) := by
  have hlen : 0 < str.length := List.length_pos.mpr hne
  have key : ∀ E1 : Env, str.length ≤ (E1.DecodeRuneInString str).2 →
      FirstGraphemeClusterInString E1 str state
        = .ok ⟨str, [],
            runeWidth E1 (E1.DecodeRuneInString str).1
              (if state < 0 then E1.propertyGraphemes (E1.DecodeRuneInString str).1
                else shr state E1.shiftGraphemePropState),
            Int.lor E1.grAny
              (shl (if state < 0 then E1.propertyGraphemes (E1.DecodeRuneInString str).1
                else shr state E1.shiftGraphemePropState) E1.shiftGraphemePropState)⟩ := by
    intro E1 h1
    unfold FirstGraphemeClusterInString
    rw [if_neg (by omega)]
    simp only [if_pos h1]
  refine ⟨key E hone, ?_⟩
  intro T
  rw [key E hone, key (withAutomaton E T) hone]
  rfl

theorem single_code_point_result_witness :
    FirstGraphemeClusterInString demoEnv [0xE4, 0xB8, 0xAD] (-1)
        = .ok ⟨[0xE4, 0xB8, 0xAD], [],
            runeWidth demoEnv (demoEnv.DecodeRuneInString [0xE4, 0xB8, 0xAD]).1
              (if (-1 : Int) < 0 then
                demoEnv.propertyGraphemes (demoEnv.DecodeRuneInString [0xE4, 0xB8, 0xAD]).1
                else shr (-1) demoEnv.shiftGraphemePropState),
            Int.lor demoEnv.grAny
              (shl (if (-1 : Int) < 0 then
                demoEnv.propertyGraphemes (demoEnv.DecodeRuneInString [0xE4, 0xB8, 0xAD]).1
                else shr (-1) demoEnv.shiftGraphemePropState)
                demoEnv.shiftGraphemePropState)⟩
      ∧ FirstGraphemeClusterInString demoEnv [0xE4, 0xB8, 0xAD] (-1)
        = .ok ⟨[0xE4, 0xB8, 0xAD], [], 2, 0⟩
      ∧ FirstGraphemeClusterInString demoEnv [0xE4, 0xB8, 0xAD] 0xE0
        = .ok ⟨[0xE4, 0xB8, 0xAD], [], 1, 0xE0⟩ :=
  ⟨(single_code_point_result demoEnv [0xE4, 0xB8, 0xAD] (-1) (by simp) (by decide)).1,
    by rfl, by rfl⟩

/-- C14: when the call returns a non-empty rest it stopped on a boundary
reported by the automaton for the first code point of the rest; if the mask is
`2 ^ shiftGraphemePropState - 1`, the automaton state returned there lies in
`0..maskGraphemeState` and the reported property is not negative, then
`newState & maskGraphemeState` is that automaton state,
`newState >> shiftGraphemePropState` is that property, `newState` is not
negative, and the next call on the rest with `newState` uses that property as
its first property (the oracle's property when the automaton reports it). -/
theorem resumable_state (E : Env) (str : GoString) (state : Int) (res : Result)
    (hres : FirstGraphemeClusterInString E str state = .ok res) (hrest : res.rest ≠ [])
    (hmask : E.maskGraphemeState = 2 ^ E.shiftGraphemePropState - 1) :
    ∃ t st, boundaryStep E str state = some t
      ∧ t = E.transitionGraphemeState (Int.land st E.maskGraphemeState) (firstRune E res.rest)
      ∧ t.2.2 = true
      ∧ (0 ≤ t.1 → t.1 ≤ E.maskGraphemeState → 0 ≤ t.2.1 →
          Int.land res.newState E.maskGraphemeState = t.1
            ∧ shr res.newState E.shiftGraphemePropState = t.2.1
            ∧ 0 ≤ res.newState
            ∧ firstProp E res.rest res.newState = t.2.1
            ∧ (t.2.1 = E.propertyGraphemes (firstRune E res.rest) →
                firstProp E res.rest res.newState
                  = E.propertyGraphemes (firstRune E res.rest))) := by
  obtain ⟨t, st, hstep, ht, hb, hnew⟩ := first_cluster_boundary E str state res hres hrest
  refine ⟨t, st, hstep, ht, hb, ?_⟩
  intro h0 h1 hp
  rw [hmask] at h1
  obtain ⟨p1, p2, p3⟩ := pack_unpack E.shiftGraphemePropState t.1 t.2.1 h0 h1 hp
  rw [← hnew] at p1 p2 p3
  have hfp := firstProp_of_nonneg E res.rest res.newState p3
  rw [p2] at hfp
  refine ⟨by rw [hmask]; exact p1, p2, p3, hfp, ?_⟩
  intro he
  rw [hfp, he]

theorem resumable_state_witness :
    FirstGraphemeClusterInString demoEnv [0x61, 0xF0, 0x9F, 0x87, 0xA9] (-1)
        = .ok ⟨[0x61], [0xF0, 0x9F, 0x87, 0xA9], 1, 105⟩
      ∧ boundaryStep demoEnv [0x61, 0xF0, 0x9F, 0x87, 0xA9] (-1) = some (9, 6, true)
      ∧ Int.land 105 demoEnv.maskGraphemeState = 9
      ∧ shr 105 demoEnv.shiftGraphemePropState = 6
      ∧ firstProp demoEnv [0xF0, 0x9F, 0x87, 0xA9] 105 = 6
      ∧ demoEnv.propertyGraphemes (firstRune demoEnv [0xF0, 0x9F, 0x87, 0xA9]) = 6
      ∧ (∃ t st, boundaryStep demoEnv [0x61, 0xF0, 0x9F, 0x87, 0xA9] (-1) = some t
          ∧ t = demoEnv.transitionGraphemeState (Int.land st demoEnv.maskGraphemeState)
                (firstRune demoEnv
                  (Result.rest ⟨[0x61], [0xF0, 0x9F, 0x87, 0xA9], 1, 105⟩))
          ∧ t.2.2 = true
          ∧ (0 ≤ t.1 → t.1 ≤ demoEnv.maskGraphemeState → 0 ≤ t.2.1 →
              Int.land (Result.newState ⟨[0x61], [0xF0, 0x9F, 0x87, 0xA9], 1, 105⟩)
                  demoEnv.maskGraphemeState = t.1
                ∧ shr (Result.newState ⟨[0x61], [0xF0, 0x9F, 0x87, 0xA9], 1, 105⟩)
                  demoEnv.shiftGraphemePropState = t.2.1
                ∧ 0 ≤ Result.newState ⟨[0x61], [0xF0, 0x9F, 0x87, 0xA9], 1, 105⟩
                ∧ firstProp demoEnv (Result.rest ⟨[0x61], [0xF0, 0x9F, 0x87, 0xA9], 1, 105⟩)
                    (Result.newState ⟨[0x61], [0xF0, 0x9F, 0x87, 0xA9], 1, 105⟩) = t.2.1
                ∧ (t.2.1 = demoEnv.propertyGraphemes
                      (firstRune demoEnv
                        (Result.rest ⟨[0x61], [0xF0, 0x9F, 0x87, 0xA9], 1, 105⟩)) →
                    firstProp demoEnv
                        (Result.rest ⟨[0x61], [0xF0, 0x9F, 0x87, 0xA9], 1, 105⟩)
                        (Result.newState ⟨[0x61], [0xF0, 0x9F, 0x87, 0xA9], 1, 105⟩)
                      = demoEnv.propertyGraphemes
                        (firstRune demoEnv
                          (Result.rest ⟨[0x61], [0xF0, 0x9F, 0x87, 0xA9], 1, 105⟩))))) :=
  ⟨by rfl, by rfl, by rfl, by rfl, by rfl, by rfl,
    resumable_state demoEnv [0x61, 0xF0, 0x9F, 0x87, 0xA9] (-1)
      ⟨[0x61], [0xF0, 0x9F, 0x87, 0xA9], 1, 105⟩ (by rfl) (by simp) (by rfl)⟩

/-- C15, as stated, fails in 64-bit arithmetic: with `EastAsianAmbiguousWidth`
set to `2 ^ 63 - 1`, which is not negative, `StringWidth` of the string
U+00A1 U+00A1 returns -2 and the cluster U+0600 U+00A1 has width `-2 ^ 63`. -/
theorem widths_wrap_negative :
    0 ≤ maxAmbiguousEnv.EastAsianAmbiguousWidth
      ∧ maxAmbiguousEnv.EastAsianAmbiguousWidth < 2 ^ 63
      ∧ StringWidth64 maxAmbiguousEnv [0xC2, 0xA1, 0xC2, 0xA1] = .ok (-2)
      ∧ FirstGraphemeClusterInString64 maxAmbiguousEnv [0xD8, 0x80, 0xC2, 0xA1] (-1)
        = .ok ⟨[0xD8, 0x80, 0xC2, 0xA1], [], -2 ^ 63, 0⟩ := by
  refine ⟨by decide, by decide, by rfl, by rfl⟩

/-- C15, amended: when `EastAsianAmbiguousWidth` is not negative and
`max(4, EastAsianAmbiguousWidth) * len(s)` is below `2 ^ 63`, so that no sum of
widths wraps around, the width returned by `FirstGraphemeClusterInString` in
64-bit arithmetic is not negative and `StringWidth` returns a value that is not
negative, for every string and state. -/
theorem widths_nonnegative_without_overflow (E : Env) (hE : DecoderAdvances E)
    (hA : 0 ≤ E.EastAsianAmbiguousWidth) (s : GoString) (state : Int)
    (hb : max 4 E.EastAsianAmbiguousWidth * (s.length : Int) < 2 ^ 63) :
    (∃ res, FirstGraphemeClusterInString64 E s state = .ok res ∧ 0 ≤ res.width)
      ∧ (∃ w, StringWidth64 E s = .ok w ∧ 0 ≤ w) := by
  by_cases hne : s = []
  · subst hne
    exact ⟨⟨⟨[], [], 0, 0⟩, by simp [FirstGraphemeClusterInString64], le_refl _⟩,
      ⟨0, by simp [StringWidth64, stringWidthLoop64], le_refl _⟩⟩
  · have hM : (4 : Int) ≤ max 4 E.EastAsianAmbiguousWidth := le_max_left _ _
    have hMA : E.EastAsianAmbiguousWidth ≤ max 4 E.EastAsianAmbiguousWidth :=
      le_max_right _ _
    have hlen : (1 : Int) ≤ (s.length : Int) := by
      exact_mod_cast List.length_pos.mpr hne
    have hmul := mul_le_mul_of_nonneg_left hlen
      (show (0 : Int) ≤ max 4 E.EastAsianAmbiguousWidth by omega)
    have hR : -2 ^ 63 ≤ E.EastAsianAmbiguousWidth ∧ E.EastAsianAmbiguousWidth < 2 ^ 63 :=
      ⟨by omega, by omega⟩
    constructor
    · obtain ⟨res, hres, hcat, _⟩ := first_cluster_returns E hE s state hne
      have h0 := first_cluster_width_nonneg E hA s state res hres
      have h1 := first_cluster_width_le E hE hA s state res hres
      have h2 : (res.cluster.length : Int) ≤ (s.length : Int) := by
        have := congrArg List.length hcat
        simp only [List.length_append] at this
        exact_mod_cast (by omega : res.cluster.length ≤ s.length)
      have h3 := mul_le_mul_of_nonneg_left h2
        (show (0 : Int) ≤ max 4 E.EastAsianAmbiguousWidth by omega)
      refine ⟨wrapWidth res, ?_, ?_⟩
      · rw [first_cluster64_eq E s state hR, hres]
        rfl
      · show 0 ≤ wrap64 res.width
        rw [wrap64_of_range _ (by omega) (by omega)]
        exact h0
    · obtain ⟨w, hw⟩ := stringWidthLoop_returns E hE s.length s (-1) 0 (Nat.le_refl _)
      have h0 := stringWidthLoop_nonneg E hA s.length s (-1) 0 w (le_refl _) hw
      have h1 := stringWidthLoop_le E hE hA s.length s (-1) 0 w hw
      refine ⟨w, ?_, h0⟩
      have hz : wrap64 0 = 0 := wrap64_of_range 0 (by norm_num) (by norm_num)
      unfold StringWidth64
      rw [← hz, stringWidthLoop64_eq E hR, hw]
      show Except.ok (wrap64 w) = Except.ok w
      rw [wrap64_of_range _ (by omega) (by omega)]

theorem widths_nonnegative_without_overflow_witness :
    FirstGraphemeClusterInString64 demoEnv [0x0A, 0xCC, 0x81, 0xFF] (-1)
        = .ok ⟨[0x0A], [0xCC, 0x81, 0xFF], 0, 80⟩
      ∧ StringWidth64 demoEnv [0x0A, 0xCC, 0x81, 0xFF] = .ok 1
      ∧ ((∃ res, FirstGraphemeClusterInString64 demoEnv [0x0A, 0xCC, 0x81, 0xFF] (-1)
              = .ok res ∧ 0 ≤ res.width)
        ∧ (∃ w, StringWidth64 demoEnv [0x0A, 0xCC, 0x81, 0xFF] = .ok w ∧ 0 ≤ w)) :=
  ⟨by rfl, by rfl,
    widths_nonnegative_without_overflow demoEnv demoEnv_advances (by decide)
      [0x0A, 0xCC, 0x81, 0xFF] (-1) (by decide)⟩

end Uniseg

namespace Runewidth

open Uniseg (GoString)

/-! ### Lemmas about `Condition.RuneWidth` -/

theorem runeWidth_out_of_range (c : Condition) (T : Tables) (r : Int)
    (h : r < 0 ∨ r > 0x10FFFF) : c.RuneWidth T r = some 0 := by
  unfold Condition.RuneWidth
  rw [if_pos h]

/-- Without a combined lookup table the result is 0, 1 or 2. -/
theorem runeWidth_tables (c : Condition) (T : Tables) (r : Int) (hl : c.combinedLut = []) :
    ∃ w, c.RuneWidth T r = some w ∧ (w = 0 ∨ w = 1 ∨ w = 2) := by
  unfold Condition.RuneWidth
  rw [hl]
  simp only [List.length_nil, gt_iff_lt, lt_self_iff_false, if_false]
  split_ifs <;> simp

/-- With a combined lookup table of at least `0x88000` bytes the result for a
code point in range is the nibble of byte `r / 2` selected by `r % 2`, modulo 4. -/
theorem runeWidth_lut (c : Condition) (T : Tables) (r : Int)
    (hlen : 0x88000 ≤ c.combinedLut.length) (h0 : 0 ≤ r) (h1 : r ≤ 0x10FFFF) :
    ∃ b, c.combinedLut[(r / 2).toNat]? = some b
      ∧ c.RuneWidth T r = some (((b.val / 16 ^ (r % 2).toNat) % 4 : Nat) : Int) := by
  obtain ⟨n, rfl⟩ := Int.eq_ofNat_of_zero_le h0
  have hn : n ≤ 0x10FFFF := by exact_mod_cast h1
  have hidx : n / 2 < c.combinedLut.length := by omega
  have hdiv : ((n : Int) / 2).toNat = n / 2 := by
    have : ((n : Int) / 2) = ((n / 2 : Nat) : Int) := by norm_cast
    rw [this]
    exact Int.toNat_natCast _
  have hmod : ((n : Int) % 2).toNat = n % 2 := by
    have : ((n : Int) % 2) = ((n % 2 : Nat) : Int) := by norm_cast
    rw [this]
    exact Int.toNat_natCast _
  refine ⟨c.combinedLut[n / 2], ?_, ?_⟩
  · rw [hdiv]
    exact List.getElem?_eq_getElem hidx
  · unfold Condition.RuneWidth
    have hr : ¬((n : Int) < 0 ∨ (n : Int) > 0x10FFFF) := by omega
    rw [if_neg hr, if_pos (by omega)]
    have hs : (Uniseg.shr (n : Int) 1).toNat = n / 2 := by
      rw [Uniseg.shr_natCast, Int.toNat_natCast, Nat.shiftRight_eq_div_pow]
    have ha : (Int.land (n : Int) 1).toNat = n % 2 := by
      have : Int.land (n : Int) 1 = ((n &&& 1 : Nat) : Int) := rfl
      rw [this, Int.toNat_natCast, Nat.and_one_is_mod]
    rw [hs, ha, hmod, List.getElem?_eq_getElem hidx]
    simp only []
    have h3 : ∀ x : Nat, Int.land (x : Int) 3 = ((x % 4 : Nat) : Int) := by
      intro x
      have e1 : Int.land (x : Int) 3 = ((x &&& (2 ^ 2 - 1) : Nat) : Int) := rfl
      rw [e1, Nat.and_pow_two_sub_one_eq_mod]
    rw [h3, Nat.shiftRight_eq_div_pow]
    have hp : 2 ^ (n % 2 * 4) = 16 ^ (n % 2) := by
      rw [Nat.mul_comm, Nat.pow_mul]
    rw [hp]

/-- When the combined lookup table is absent or long enough, `RuneWidth` returns
a value between 0 and 3. -/
theorem runeWidth_total (c : Condition) (T : Tables) (r : Int)
    (hlut : c.combinedLut = [] ∨ 0x88000 ≤ c.combinedLut.length) :
    ∃ w, c.RuneWidth T r = some w ∧ 0 ≤ w ∧ w ≤ 3 := by
  by_cases hr : r < 0 ∨ r > 0x10FFFF
  · exact ⟨0, runeWidth_out_of_range c T r hr, by norm_num, by norm_num⟩
  · rcases hlut with hl | hlen
    · obtain ⟨w, hw, hv⟩ := runeWidth_tables c T r hl
      exact ⟨w, hw, by omega, by omega⟩
    · obtain ⟨b, _, hw⟩ := runeWidth_lut c T r hlen (by omega) (by omega)
      refine ⟨_, hw, Int.natCast_nonneg _, ?_⟩
      have : b.val / 16 ^ (r % 2).toNat % 4 < 4 := Nat.mod_lt _ (by norm_num)
      omega

theorem runeWidth_eq_widthOf (c : Condition) (T : Tables) (r : Int)
    (hlut : c.combinedLut = [] ∨ 0x88000 ≤ c.combinedLut.length) :
    c.RuneWidth T r = some (widthOf c T r) ∧ 0 ≤ widthOf c T r := by
  obtain ⟨w, hw, h0, _⟩ := runeWidth_total c T r hlut
  unfold widthOf
  rw [hw]
  exact ⟨rfl, h0⟩

/-! ### Lemmas about `Condition.StringWidth` -/

theorem chWidthLoop_first_nonzero (c : Condition) (T : Tables)
    (hlut : c.combinedLut = [] ∨ 0x88000 ≤ c.combinedLut.length) :
    ∀ rs : List Int, chWidthLoop c T rs 0 = some (firstNonZero (rs.map (widthOf c T))) := by
  intro rs
  induction rs with
  | nil => rfl
  | cons r rs ih =>
    obtain ⟨hw, h0⟩ := runeWidth_eq_widthOf c T r hlut
    rw [chWidthLoop, hw]
    simp only [List.map_cons, firstNonZero]
    by_cases hpos : widthOf c T r > 0
    · rw [if_pos hpos, if_pos (by omega)]
    · have hz : widthOf c T r = 0 := by omega
      rw [if_neg hpos, hz, ih]
      simp

theorem clusterWidthsLoop_sum (c : Condition) (T : Tables) (G : Segmenter)
    (hlut : c.combinedLut = [] ∨ 0x88000 ≤ c.combinedLut.length) :
    ∀ (gs : List GoString) (width : Int),
      clusterWidthsLoop c T G gs width
        = some (width + (gs.map (fun g => firstNonZero ((G.runes g).map (widthOf c T)))).sum) := by
  intro gs
  induction gs with
  | nil => intro width; simp [clusterWidthsLoop]
  | cons g gs ih =>
    intro width
    rw [clusterWidthsLoop, chWidthLoop_first_nonzero c T hlut]
    simp only []
    rw [ih]
    simp [add_assoc]

theorem runeWidth_latin (c : Condition) (T : Tables) (r : Int)
    (hE : c.EastAsianWidth = false) (hl : c.combinedLut = []) (h0 : 0 ≤ r) (h1 : r < 0x300) :
    c.RuneWidth T r
      = some (if r < 0x20 ∨ (0x7F ≤ r ∧ r ≤ 0x9F) ∨ r = 0xAD then 0 else 1) := by
  unfold Condition.RuneWidth
  have hr : ¬(r < 0 ∨ r > 0x10FFFF) := by omega
  rw [if_neg hr, hl, hE]
  simp only [List.length_nil, gt_iff_lt, lt_self_iff_false, if_false, Bool.not_false, if_true]
  by_cases c1 : r < 0x20
  · rw [if_pos c1, if_pos (Or.inl c1)]
  · rw [if_neg c1]
    by_cases c2 : (r ≥ 0x7F ∧ r ≤ 0x9F) ∨ r = 0xAD
    · rw [if_pos c2, if_pos (Or.inr (by omega))]
    · rw [if_neg c2, if_pos h1, if_neg (by omega)]

theorem demoLut_length : demoLut.length = 0x88000 := by
  unfold demoLut
  exact List.length_replicate _ _

theorem demoLut_ne_nil : demoLut ≠ [] := by
  intro h
  have h1 := congrArg List.length h
  rw [demoLut_length] at h1
  exact absurd h1 (by decide)

/-! ### The claims about the legacy width -/

/-- C16: for every condition, with any flags, tables and combined lookup table,
a rune below 0 or above 0x10FFFF has `RuneWidth` 0; neither the lookup table nor
the range tables play a part. -/
theorem runeWidth_zero_out_of_range (c : Condition) (T : Tables) (r : Int)
    (h : r < 0 ∨ r > 0x10FFFF) :
    c.RuneWidth T r = some 0
      ∧ (∀ (c2 : Condition) (T2 : Tables), c2.RuneWidth T2 r = c.RuneWidth T r) := by
  refine ⟨runeWidth_out_of_range c T r h, ?_⟩
  intro c2 T2
  rw [runeWidth_out_of_range c T r h, runeWidth_out_of_range c2 T2 r h]

theorem runeWidth_zero_out_of_range_witness :
    (Condition.mk [0x21] true false).RuneWidth demoTables 0x110000 = some 0
      ∧ (∀ (c2 : Condition) (T2 : Tables),
          c2.RuneWidth T2 0x110000
            = (Condition.mk [0x21] true false).RuneWidth demoTables 0x110000) :=
  runeWidth_zero_out_of_range (Condition.mk [0x21] true false) demoTables 0x110000
    (Or.inr (by decide))

/-- C17: when the combined lookup table is absent or covers every code point,
the legacy `StringWidth(s)` is the sum, over the grapheme clusters of `s`, of
the `RuneWidth` of the first rune of the cluster whose `RuneWidth` is not zero,
or 0 when every rune of the cluster has `RuneWidth` 0; later runes add nothing. -/
theorem legacy_stringWidth_first_nonzero (c : Condition) (T : Tables) (G : Segmenter)
    (s : GoString) (hlut : c.combinedLut = [] ∨ 0x88000 ≤ c.combinedLut.length) :
    c.StringWidth T G s
        = some (((G.graphemes s).map
            (fun g => firstNonZero ((G.runes g).map (widthOf c T)))).sum)
      ∧ (∀ r, c.RuneWidth T r = some (widthOf c T r)) := by
  refine ⟨?_, fun r => (runeWidth_eq_widthOf c T r hlut).1⟩
  unfold Condition.StringWidth
  rw [clusterWidthsLoop_sum c T G hlut]
  simp

theorem legacy_stringWidth_first_nonzero_witness :
    demoSegmenter.graphemes [0x65, 0xCC, 0x81, 0xE4, 0xB8, 0xAD]
        = [[0x65, 0xCC, 0x81], [0xE4, 0xB8, 0xAD]]
      ∧ demoSegmenter.runes [0x65, 0xCC, 0x81] = [0x65, 0x0301]
      ∧ demoSegmenter.runes [0xE4, 0xB8, 0xAD] = [0x4E2D]
      ∧ (Condition.mk [] false false).StringWidth demoTables demoSegmenter
          [0x65, 0xCC, 0x81, 0xE4, 0xB8, 0xAD] = some 3
      ∧ ((Condition.mk [] false false).StringWidth demoTables demoSegmenter
            [0x65, 0xCC, 0x81, 0xE4, 0xB8, 0xAD]
          = some (((demoSegmenter.graphemes [0x65, 0xCC, 0x81, 0xE4, 0xB8, 0xAD]).map
              (fun g => firstNonZero
                ((demoSegmenter.runes g).map
                  (widthOf (Condition.mk [] false false) demoTables)))).sum)
        ∧ (∀ r, (Condition.mk [] false false).RuneWidth demoTables r
            = some (widthOf (Condition.mk [] false false) demoTables r))) :=
  ⟨by rfl, by rfl, by rfl, by rfl,
    legacy_stringWidth_first_nonzero (Condition.mk [] false false) demoTables demoSegmenter
      [0x65, 0xCC, 0x81, 0xE4, 0xB8, 0xAD] (Or.inl rfl)⟩

/-- C18: the legacy `RuneWidth(r)` is 0, 1 or 2 when no combined lookup table is
set; when a combined lookup table covering the indices 0..0x87FFF is set it is
between 0 and 3, and for a rune in range it is the low two bits of the nibble
selected by `r & 1` in byte `r >> 1`; in both cases it lies in 0..4. -/
theorem legacy_runeWidth_range (c : Condition) (T : Tables) (r : Int) :
    (c.combinedLut = [] → ∃ w, c.RuneWidth T r = some w ∧ (w = 0 ∨ w = 1 ∨ w = 2))
      ∧ (c.combinedLut ≠ [] → 0x88000 ≤ c.combinedLut.length →
          (∃ w, c.RuneWidth T r = some w ∧ (w = 0 ∨ w = 1 ∨ w = 2 ∨ w = 3))
            ∧ (0 ≤ r → r ≤ 0x10FFFF →
                ∃ b, c.combinedLut[(r / 2).toNat]? = some b
                  ∧ c.RuneWidth T r
                    = some (((b.val / 16 ^ (r % 2).toNat) % 4 : Nat) : Int)))
      ∧ ((c.combinedLut = [] ∨ 0x88000 ≤ c.combinedLut.length) →
          ∃ w, c.RuneWidth T r = some w
            ∧ (w = 0 ∨ w = 1 ∨ w = 2 ∨ w = 3 ∨ w = 4)) := by
  refine ⟨runeWidth_tables c T r, ?_, ?_⟩
  · intro _ hlen
    refine ⟨?_, runeWidth_lut c T r hlen⟩
    obtain ⟨w, hw, h0, h3⟩ := runeWidth_total c T r (Or.inr hlen)
    exact ⟨w, hw, by omega⟩
  · intro hlut
    obtain ⟨w, hw, h0, h3⟩ := runeWidth_total c T r hlut
    exact ⟨w, hw, by omega⟩

theorem legacy_runeWidth_range_witness :
    (∃ w, (Condition.mk [] true false).RuneWidth demoTables 0x4E2D = some w
        ∧ (w = 0 ∨ w = 1 ∨ w = 2))
      ∧ ((∃ w, (Condition.mk demoLut true false).RuneWidth demoTables 0x4E2D = some w
            ∧ (w = 0 ∨ w = 1 ∨ w = 2 ∨ w = 3))
        ∧ ((0 : Int) ≤ 0x4E2D → (0x4E2D : Int) ≤ 0x10FFFF →
            ∃ b, (Condition.mk demoLut true false).combinedLut[((0x4E2D : Int) / 2).toNat]?
                = some b
              ∧ (Condition.mk demoLut true false).RuneWidth demoTables 0x4E2D
                = some (((b.val / 16 ^ ((0x4E2D : Int) % 2).toNat) % 4 : Nat) : Int))) :=
  ⟨(legacy_runeWidth_range (Condition.mk [] true false) demoTables 0x4E2D).1 rfl,
    (legacy_runeWidth_range (Condition.mk demoLut true false) demoTables 0x4E2D).2.1
      demoLut_ne_nil (Nat.le_of_eq demoLut_length.symm)⟩

/-- C19: with `EastAsianWidth` set and no combined lookup table, `RuneWidth` of
a rune in 0..0x10FFFF is decided in this order: nonprint or combining gives 0,
narrow gives 1, ambiguous or doublewidth gives 2, emoji without
`StrictEmojiNeutral` gives 2, anything else 1; so the fourth test may look at
the emoji table alone, and the flag changes the width, from 1 to 2, exactly for
the emoji runes that are in none of the five other tables. -/
theorem east_asian_rule_order (c : Condition) (T : Tables) (r : Int)
    (hE : c.EastAsianWidth = true) (hl : c.combinedLut = []) (h0 : 0 ≤ r)
    (h1 : r ≤ 0x10FFFF) :
    c.RuneWidth T r = some (eastAsianOrder T c.StrictEmojiNeutral r)
      ∧ ((Condition.mk [] true false).RuneWidth T r ≠ (Condition.mk [] true true).RuneWidth T r
          ↔ (T.emoji r = true ∧ T.nonprint r = false ∧ T.combining r = false
              ∧ T.narrow r = false ∧ T.ambiguous r = false ∧ T.doublewidth r = false))
      ∧ ((T.emoji r = true ∧ T.nonprint r = false ∧ T.combining r = false
            ∧ T.narrow r = false ∧ T.ambiguous r = false ∧ T.doublewidth r = false) →
          (Condition.mk [] true false).RuneWidth T r = some 2
            ∧ (Condition.mk [] true true).RuneWidth T r = some 1) := by
  have hr : ¬(r < 0 ∨ r > 0x10FFFF) := by omega
  have key : ∀ strict : Bool,
      (Condition.mk [] true strict).RuneWidth T r = some (eastAsianOrder T strict r) := by
    intro strict
    unfold Condition.RuneWidth eastAsianOrder inTables inTable
    rw [if_neg hr]
    simp only [List.any_cons, List.any_nil, Bool.or_false, List.length_nil, gt_iff_lt,
      lt_self_iff_false, if_false, Bool.not_true, Bool.false_eq_true]
    generalize T.nonprint r = a1
    generalize T.combining r = a2
    generalize T.narrow r = a3
    generalize T.ambiguous r = a4
    generalize T.doublewidth r = a5
    generalize T.emoji r = a6
    cases strict <;> cases a1 <;> cases a2 <;> cases a3 <;> cases a4 <;> cases a5
      <;> cases a6 <;> rfl
  refine ⟨?_, ?_, ?_⟩
  · cases c with
    | mk lut ea strict =>
      simp only at hE hl
      subst hE
      subst hl
      exact key strict
  · rw [key false, key true]
    unfold eastAsianOrder
    generalize T.nonprint r = a1
    generalize T.combining r = a2
    generalize T.narrow r = a3
    generalize T.ambiguous r = a4
    generalize T.doublewidth r = a5
    generalize T.emoji r = a6
    cases a1 <;> cases a2 <;> cases a3 <;> cases a4 <;> cases a5 <;> cases a6 <;> simp
  · rintro ⟨e1, e2, e3, e4, e5, e6⟩
    rw [key false, key true]
    unfold eastAsianOrder
    simp [e1, e2, e3, e4, e5, e6]

theorem east_asian_rule_order_witness :
    (Condition.mk [] true false).RuneWidth demoTables 0xA9
        = some (eastAsianOrder demoTables false 0xA9)
      ∧ (Condition.mk [] true false).RuneWidth demoTables 0xA9 = some 2
      ∧ (Condition.mk [] true true).RuneWidth demoTables 0xA9 = some 1 :=
  ⟨(east_asian_rule_order (Condition.mk [] true false) demoTables 0xA9 rfl rfl
      (by decide) (by decide)).1,
    ((east_asian_rule_order (Condition.mk [] true false) demoTables 0xA9 rfl rfl
      (by decide) (by decide)).2.2 (by decide)).1,
    ((east_asian_rule_order (Condition.mk [] true false) demoTables 0xA9 rfl rfl
      (by decide) (by decide)).2.2 (by decide)).2⟩

/-- C20: with `EastAsianWidth` unset and no combined lookup table, `RuneWidth`
of a rune `0 ≤ r < 0x300` is 0 if `r < 0x20`, `0x7F ≤ r ≤ 0x9F` or `r = 0xAD`,
and 1 otherwise, whatever the range tables and `StrictEmojiNeutral` are; so a
string split into one-rune clusters of printable ASCII has the number of its
clusters as legacy `StringWidth`. -/
theorem latin_rune_width (c : Condition) (T : Tables) (r : Int)
    (hE : c.EastAsianWidth = false) (hl : c.combinedLut = []) (h0 : 0 ≤ r) (h1 : r < 0x300) :
    c.RuneWidth T r
        = some (if r < 0x20 ∨ (0x7F ≤ r ∧ r ≤ 0x9F) ∨ r = 0xAD then 0 else 1)
      ∧ (∀ (G : Segmenter) (s : GoString),
          (∀ g ∈ G.graphemes s, ∃ q, G.runes g = [q] ∧ 0x20 ≤ q ∧ q ≤ 0x7E) →
          c.StringWidth T G s = some ((G.graphemes s).length : Int)) := by
  refine ⟨runeWidth_latin c T r hE hl h0 h1, ?_⟩
  intro G s hall
  unfold Condition.StringWidth
  rw [clusterWidthsLoop_sum c T G (Or.inl hl), zero_add]
  congr 1
  generalize G.graphemes s = gs at hall
  induction gs with
  | nil => rfl
  | cons g gs ih =>
    obtain ⟨q, hq, q0, q1⟩ := hall g (List.mem_cons_self _ _)
    have hw : widthOf c T q = 1 := by
      unfold widthOf
      rw [runeWidth_latin c T q hE hl (by omega) (by omega), if_neg (by omega)]
      rfl
    have hrest := ih (fun g1 h1 => hall g1 (List.mem_cons_of_mem _ h1))
    simp only [List.map_cons, List.sum_cons, List.length_cons, hq, hrest, firstNonZero, hw,
      List.map_nil]
    push_cast
    ring

theorem latin_rune_width_witness :
    (Condition.mk [] false true).RuneWidth demoTables 0x48
        = some (if (0x48 : Int) < 0x20 ∨ (0x7F ≤ (0x48 : Int) ∧ (0x48 : Int) ≤ 0x9F)
            ∨ (0x48 : Int) = 0xAD then 0 else 1)
      ∧ demoSegmenter.graphemes [0x48, 0x65, 0x6c, 0x6c, 0x6f]
        = [[0x48], [0x65], [0x6c], [0x6c], [0x6f]]
      ∧ (Condition.mk [] false true).StringWidth demoTables demoSegmenter
          [0x48, 0x65, 0x6c, 0x6c, 0x6f]
        = some ((demoSegmenter.graphemes [0x48, 0x65, 0x6c, 0x6c, 0x6f]).length : Int)
      ∧ (Condition.mk [] false true).StringWidth demoTables demoSegmenter
          [0x48, 0x65, 0x6c, 0x6c, 0x6f] = some 5 :=
  ⟨(latin_rune_width (Condition.mk [] false true) demoTables 0x48 rfl rfl
      (by decide) (by decide)).1,
    by rfl,
    (latin_rune_width (Condition.mk [] false true) demoTables 0x48 rfl rfl
      (by decide) (by decide)).2 demoSegmenter [0x48, 0x65, 0x6c, 0x6c, 0x6f]
      (by
        rw [show demoSegmenter.graphemes [0x48, 0x65, 0x6c, 0x6c, 0x6f]
          = [[0x48], [0x65], [0x6c], [0x6c], [0x6f]] from by rfl]
        intro g hg
        simp only [List.mem_cons, List.mem_singleton, List.not_mem_nil, or_false] at hg
        rcases hg with h | h | h | h | h <;> subst h
        · exact ⟨0x48, by rfl, by decide, by decide⟩
        · exact ⟨0x65, by rfl, by decide, by decide⟩
        · exact ⟨0x6c, by rfl, by decide, by decide⟩
        · exact ⟨0x6c, by rfl, by decide, by decide⟩
        · exact ⟨0x6f, by rfl, by decide, by decide⟩),
    by rfl⟩

end Runewidth
